import Mathlib

/-!
Verification of the `raspi_firmware/code.py` device runtime.

Python strings are modelled as `List Char`; Python byte strings written to
storage are modelled by the corresponding decoded text (all writes in the
program are UTF-8 encodings of strings).  Python `float` values are modelled
by their canonical `str()` representation (a `List Char`), which is adequate
because the program only ever creates floats from text and prints them back;
`float(tok)` is modelled by an acceptance test on the token, and the parsed
value keeps the stripped token as its representation (faithful on canonical
representations, which is the only region the theorems exercise).
-/

namespace Firmware

abbrev Str := List Char

/-- Whitespace set stripped by Python `str.strip()` (ASCII portion). -/
def pyIsSpace (c : Char) : Bool :=
  c = ' ' || c = '\t' || c = '\n' || c = '\r' || c = '\x0b' || c = '\x0c'

/-- Python `str.strip()`. -/
def pyStrip (l : Str) : Str :=
  ((l.dropWhile pyIsSpace).reverse.dropWhile pyIsSpace).reverse

/-- Line-boundary characters recognised by Python `str.splitlines()`. -/
def breakChar (c : Char) : Bool :=
  c = '\n' || c = '\r' || c = '\x0b' || c = '\x0c' ||
  c = '\x1c' || c = '\x1d' || c = '\x1e' || c = '\x85' ||
  c = '\u2028' || c = '\u2029'

/-- Worker for `pySplitlines`; `acc` is the current line, reversed. -/
def splitlinesAux : Str → Str → List Str
  | [], acc => if acc.isEmpty then [] else [acc.reverse]
  | [c], acc =>
    if breakChar c then [acc.reverse] else [(c :: acc).reverse]
  | c :: d :: cs2, acc =>
    if c = '\r' ∧ d = '\n' then acc.reverse :: splitlinesAux cs2 []
    else if breakChar c then acc.reverse :: splitlinesAux (d :: cs2) []
    else splitlinesAux (d :: cs2) (c :: acc)

/-- Python `str.splitlines()`. -/
def pySplitlines (l : Str) : List Str :=
  splitlinesAux l []

/-- Python `str.lower()` (ASCII portion). -/
def toLowerL (l : Str) : Str :=
  l.map Char.toLower

/-- Split a string at the first occurrence of `sep`; `none` when absent
(models Python `sep in s` + `s.split(sep, 1)`). -/
def splitAtFirst (sep : Char) : Str → Option (Str × Str)
  | [] => none
  | c :: cs =>
    if c = sep then some ([], cs)
    else match splitAtFirst sep cs with
      | some (a, b) => some (c :: a, b)
      | none => none

/-- Decimal digit character for `d` (meaningful for `d < 10`). -/
def digitChar (d : Nat) : Char :=
  match d with
  | 0 => '0' | 1 => '1' | 2 => '2' | 3 => '3' | 4 => '4'
  | 5 => '5' | 6 => '6' | 7 => '7' | 8 => '8' | _ => '9'

def digitVal (c : Char) : Nat := c.toNat - 48

/-- Fuel-driven worker for `natDigits` (structural, so that concrete
values reduce in the kernel). -/
def natDigitsF : Nat → Nat → Str
  | 0, n => [digitChar (n % 10)]
  | fuel + 1, n =>
    if n < 10 then [digitChar n]
    else natDigitsF fuel (n / 10) ++ [digitChar (n % 10)]

/-- Decimal digit string of a natural number, most significant first. -/
def natDigits (n : Nat) : Str :=
  natDigitsF n n

theorem natDigitsF_congr : ∀ f1 f2 n : Nat, n ≤ f1 → n ≤ f2 →
    natDigitsF f1 n = natDigitsF f2 n := by
  intro f1
  induction f1 with
  | zero =>
    intro f2 n h1 _
    interval_cases n
    cases f2 <;> simp [natDigitsF]
  | succ f ih =>
    intro f2 n h1 h2
    by_cases hn : n < 10
    · cases f2 with
      | zero =>
        interval_cases n
        simp [natDigitsF]
      | succ f2' => simp [natDigitsF, hn]
    · cases f2 with
      | zero => omega
      | succ f2' =>
        have hd : n / 10 ≤ f := by omega
        have hd2 : n / 10 ≤ f2' := by omega
        simp only [natDigitsF, if_neg hn]
        rw [ih f2' (n / 10) hd hd2]

/-- The recursive unfolding of `natDigits`. -/
theorem natDigits_eq (n : Nat) :
    natDigits n = if n < 10 then [digitChar n]
      else natDigits (n / 10) ++ [digitChar (n % 10)] := by
  by_cases hn : n < 10
  · cases n with
    | zero => simp [natDigits, natDigitsF]
    | succ m => simp [natDigits, natDigitsF, hn]
  · have hpos : n ≠ 0 := by omega
    obtain ⟨m, rfl⟩ : ∃ m, n = m + 1 := ⟨n - 1, by omega⟩
    simp only [natDigits, natDigitsF, if_neg hn]
    rw [natDigitsF_congr m ((m + 1) / 10) ((m + 1) / 10) (by omega) le_rfl]

/-- Value of a digit string. -/
def digitsToNat (l : Str) : Nat :=
  l.foldl (fun a c => a * 10 + digitVal c) 0

/-- Python `str(int)`. -/
def pyIntStr (n : Int) : Str :=
  if n < 0 then '-' :: natDigits n.natAbs else natDigits n.natAbs

/-- Consume a maximal digit group with Python's underscore rule
(an underscore must sit between two digits); returns the digits consumed
(underscores removed) and the rest of the input. -/
def dgTail : Str → (Str × Str)
  | [] => ([], [])
  | [c] =>
    if c.isDigit then ([c], []) else ([], [c])
  | c :: d :: cs2 =>
    if c.isDigit then
      (c :: (dgTail (d :: cs2)).1, (dgTail (d :: cs2)).2)
    else if c = '_' ∧ d.isDigit then
      (d :: (dgTail cs2).1, (dgTail cs2).2)
    else ([], c :: d :: cs2)

/-- Start of a digit group: at least one leading digit, then `dgTail`. -/
def digitGroup : Str → (Str × Str)
  | [] => ([], [])
  | c :: cs =>
    if c.isDigit then (c :: (dgTail cs).1, (dgTail cs).2)
    else ([], c :: cs)

/-- Strip one optional leading sign; returns (isNegative, rest). -/
def stripSign : Str → Bool × Str
  | [] => (false, [])
  | c :: cs =>
    if c = '-' then (true, cs)
    else if c = '+' then (false, cs)
    else (false, c :: cs)

/-- Python `int(token)` on a string: strips whitespace, optional sign,
digits with underscores; `none` models `ValueError`. -/
def pyIntParse (v : Str) : Option Int :=
  let s := pyStrip v
  let body := (stripSign s).2
  let ds := (digitGroup body).1
  let rest := (digitGroup body).2
  if ds.isEmpty || !rest.isEmpty then none
  else
    let n : Int := Int.ofNat (digitsToNat ds)
    some (if (stripSign s).1 then -n else n)

/-- Exponent suffix of a Python float literal: `e`/`E`, optional sign,
digit group consuming the whole rest. -/
def floatExpPart : Str → Bool
  | [] => false
  | c :: cs =>
    if c = 'e' ∨ c = 'E' then
      !(digitGroup (stripSign cs).2).1.isEmpty &&
        (digitGroup (stripSign cs).2).2.isEmpty
    else false

/-- Fractional / exponent tail of a Python float literal after the integer
digits: `[. digits] [exp]`, requiring at least one digit overall. -/
def floatTail (hadIntDigits : Bool) : Str → Bool
  | [] => hadIntDigits
  | c :: cs =>
    if c = '.' then
      (hadIntDigits || !(digitGroup cs).1.isEmpty) &&
        ((digitGroup cs).2.isEmpty || floatExpPart (digitGroup cs).2)
    else hadIntDigits && floatExpPart (c :: cs)

/-- Python `float(token)` acceptance test (models whether `float(...)`
raises `ValueError`).  Handles sign, `inf`/`infinity`/`nan`, and decimal
literals with optional fraction and exponent. -/
def pyFloatAccepts (v : Str) : Bool :=
  let s := pyStrip v
  let body := (stripSign s).2
  let low := toLowerL body
  if low = ['i', 'n', 'f'] ∨ low = ['i', 'n', 'f', 'i', 'n', 'i', 't', 'y'] ∨
      low = ['n', 'a', 'n'] then true
  else
    floatTail (!(digitGroup body).1.isEmpty) (digitGroup body).2

/-- A value of the settings document: Python str / int / float / bool.
A float is carried as its canonical `str()` representation. -/
inductive PyVal where
  | str (s : Str)
  | int (n : Int)
  | float (r : Str)
  | bool (b : Bool)
  deriving DecidableEq, Repr

instance : Inhabited PyVal := ⟨PyVal.bool false⟩

abbrev Doc := List (Str × PyVal)

/-- `ConfigManager._convert_value`: quote stripping, booleans, floats,
integers, raw fallback — in the source's order of checks. -/
def convert_value (v : Str) : PyVal :=
  if v.head? = some '"' ∧ v.getLast? = some '"' then
    .str ((v.drop 1).dropLast)
  else if v.head? = some '\'' ∧ v.getLast? = some '\'' then
    .str ((v.drop 1).dropLast)
  else if toLowerL v = ['t', 'r', 'u', 'e'] then
    .bool true
  else if toLowerL v = ['f', 'a', 'l', 's', 'e'] then
    .bool false
  else if '.' ∈ v then
    if pyFloatAccepts v then .float (pyStrip v) else .str v
  else
    match pyIntParse v with
    | some n => .int n
    | none => .str v

/-- Replace each `"` by `\"` (Python `value.replace('"', '\\"')`). -/
def escapeQuotes : Str → Str
  | [] => []
  | c :: cs => if c = '"' then '\\' :: '"' :: escapeQuotes cs
               else c :: escapeQuotes cs

/-- `ConfigManager._format_value`: TOML rendering of one scalar. -/
def format_value : PyVal → Str
  | .str s => '"' :: (escapeQuotes s ++ ['"'])
  | .bool b => if b then ['t', 'r', 'u', 'e'] else ['f', 'a', 'l', 's', 'e']
  | .int n => pyIntStr n
  | .float r => r

/-- Join lines with `\n` (Python `"\n".join(lines)`). -/
def joinNL : List Str → Str
  | [] => []
  | [l] => l
  | l :: ls => l ++ '\n' :: joinNL ls

/-- `ConfigManager._dump_toml` (fallback writer, `tomli_w` absent):
one `key = value` line per entry plus a trailing newline. -/
def dump_toml (doc : Doc) : Str :=
  joinNL ((doc.map fun kv => kv.1 ++ (' ' :: '=' :: ' ' :: format_value kv.2)) ++ [[]])

/-- Python `dict` assignment `d[k] = v` on an insertion-ordered mapping:
overwrite in place when the key exists, else append. -/
def dictInsert : Doc → Str → PyVal → Doc
  | [], k, v => [(k, v)]
  | kv :: rest, k, v =>
    if kv.1 = k then (k, v) :: rest else kv :: dictInsert rest k v

/-- One line of `ConfigManager._parse_minimal_toml`'s loop body. -/
def parseLineStep (acc : Doc) (rawLine : Str) : Doc :=
  let line := pyStrip rawLine
  if line.isEmpty then acc
  else if line.head? = some '#' then acc
  else match splitAtFirst '=' line with
    | none => acc
    | some (k, v) => dictInsert acc (pyStrip k) (convert_value (pyStrip v))

/-- `ConfigManager._parse_minimal_toml`. -/
def parse_minimal_toml (content : Str) : Doc :=
  (pySplitlines content).foldl parseLineStep []

/-! ## ConfigManager.save_settings as a trace of storage operations -/

/-- One observable file-system / lifecycle effect. -/
inductive FsOp where
  /-- `open(path, "wb")`: truncate `path` to empty. -/
  | openTrunc (path : Str)
  /-- write `data` to the file opened at `path`. -/
  | writeBytes (path : Str) (data : Str)
  /-- delete the file at `path` (not performed by this program). -/
  | removeFile (path : Str)
  /-- rename `src` to `dst` (not performed by this program). -/
  | renameFile (src dst : Str)
  /-- `microcontroller.reset()`: full device restart. -/
  | resetDevice
  deriving DecidableEq, Repr

/-- `ConfigManager` state: the file path and the in-memory cache. -/
structure ConfigManager where
  filepath : Str
  settingsCache : Option Doc
  deriving DecidableEq, Repr

/-- `ConfigManager.save_settings` (with the `microcontroller` capability
present, as on the device): update the cache, serialize, open the settings
path itself for writing (truncating), write the serialized bytes, then
reset.  Returns the new manager state and the effect trace. -/
def save_settings (cm : ConfigManager) (settings : Doc) :
    ConfigManager × List FsOp :=
  ({ cm with settingsCache := some settings },
   [FsOp.openTrunc cm.filepath,
    FsOp.writeBytes cm.filepath (dump_toml settings),
    FsOp.resetDevice])

/-- Content of the settings file if execution stops after only `k`
characters of the write were flushed: `open(..., "wb")` has already
truncated the file, so a reader sees a prefix of the new serialization. -/
def fileAfterCrash (newContent : Str) (k : Nat) : Str :=
  newContent.take k

/-! ## The scalar-coercion rules as the specification words them -/

/-- A token carrying surrounding double or single quotes. -/
def isQuoted (v : Str) : Prop :=
  (v.head? = some '"' ∧ v.getLast? = some '"') ∨
  (v.head? = some '\'' ∧ v.getLast? = some '\'')

instance (v : Str) : Decidable (isQuoted v) := by
  unfold isQuoted; infer_instance

/-- Drop the surrounding quotes (Python `value[1:-1]`). -/
def stripOuter (v : Str) : Str :=
  (v.drop 1).dropLast

/-- The claim's reading of the coercion rules, in the claim's order:
unquoted `true`/`false` in any case → boolean; a token containing `.`
that parses as a number → float; otherwise a token parsing as an
integer → integer; a quoted token → the string with the quotes
stripped; anything else → the raw string. -/
def convert_value_claim (v : Str) : PyVal :=
  if ¬ isQuoted v ∧ toLowerL v = ['t', 'r', 'u', 'e'] then .bool true
  else if ¬ isQuoted v ∧ toLowerL v = ['f', 'a', 'l', 's', 'e'] then .bool false
  else if '.' ∈ v ∧ pyFloatAccepts v then .float (pyStrip v)
  else match pyIntParse v with
    | some n => .int n
    | none => if isQuoted v then .str (stripOuter v) else .str v

/-! ## WebServer._http_response -/

/-- UTF-8 byte length of a text (Python `len(body.encode('utf-8'))`). -/
def utf8Len (l : Str) : Nat :=
  (l.map Char.utf8Size).sum

/-- The `reason_phrases` table with its `.get(status_code, "OK")` default. -/
def reason_phrase (c : Nat) : Str :=
  if c = 200 then "OK".data
  else if c = 303 then "See Other".data
  else if c = 400 then "Bad Request".data
  else if c = 404 then "Not Found".data
  else if c = 405 then "Method Not Allowed".data
  else if c = 415 then "Unsupported Media Type".data
  else if c = 500 then "Internal Server Error".data
  else "OK".data

/-- The `header_lines` list built by `WebServer._http_response`, including
the trailing empty element. -/
def http_header_lines (status : Nat) (body : Str) (contentType : Str)
    (headers : List (Str × Str)) : List Str :=
  ["HTTP/1.1 ".data ++ natDigits status ++ ' ' :: reason_phrase status,
   "Content-Type: ".data ++ contentType ++ "; charset=utf-8".data,
   "Content-Length: ".data ++ natDigits (utf8Len body),
   "Connection: close".data] ++
  headers.map (fun kv => kv.1 ++ ':' :: ' ' :: kv.2) ++ [[]]

/-- Join with `\r\n` (Python `"\r\n".join(...)`). -/
def joinCRLF : List Str → Str
  | [] => []
  | [l] => l
  | l :: ls => l ++ '\r' :: '\n' :: joinCRLF ls

/-- `WebServer._http_response`: status line, `Content-Type`,
`Content-Length`, `Connection: close`, extra headers, blank line, body. -/
def http_response (status : Nat) (body : Str) (contentType : Str)
    (headers : List (Str × Str)) : Str :=
  joinCRLF (http_header_lines status body contentType headers) ++
    '\r' :: '\n' :: body

/-! ## NetworkManager: bounded-retry wifi connect -/

/-- The link-layer radio: `wifi.radio`, observable through
`ipv4_address is not None`. -/
structure Radio where
  associated : Bool
  deriving DecidableEq, Repr

/-- `NetworkManager.is_connected`: live link-layer state. -/
def nm_is_connected (r : Radio) : Bool :=
  r.associated

/-- `NetworkManager.get_ip`: the null address when disconnected. -/
def nm_get_ip (r : Radio) (addr : Str) : Str :=
  if !nm_is_connected r then "0.0.0.0".data else addr

inductive NetErr where
  | notConnected
  deriving DecidableEq, Repr

/-- `NetworkManager.get_socket_pool`: fails `NotConnected` without a live
association, else returns the (lazily created) pool. -/
def nm_get_socket_pool (r : Radio) : Except NetErr Unit :=
  if !nm_is_connected r then .error .notConnected else .ok ()

/-- The retry loop of `NetworkManager.connect`: `oracle i` tells whether
the `i`-th `wifi.radio.connect` attempt succeeds.  Returns (result, radio,
attempts made, sleep durations in seconds, last_error set?). -/
def connectAttempts (oracle : Nat → Bool) (r : Radio) :
    Nat → Nat → Bool × Radio × Nat × List ℚ × Bool
  | 0, _ => (false, r, 0, [], true)
  | fuel + 1, i =>
    if oracle i then (true, { associated := true }, 1, [], false)
    else
      let rec2 := connectAttempts oracle r fuel (i + 1)
      (rec2.1, rec2.2.1, rec2.2.2.1 + 1, (2 : ℚ) :: rec2.2.2.2.1, rec2.2.2.2.2)

/-- `NetworkManager.connect` (max_retries = 5, retry_delay = 2.0): no-op
success when already connected, else up to 5 attempts with a 2 s sleep
after each failure, `False` after exhaustion. -/
def nm_connect (r : Radio) (oracle : Nat → Bool) :
    Bool × Radio × Nat × List ℚ × Bool :=
  if nm_is_connected r then (true, r, 0, [], false)
  else connectAttempts oracle r 5 0

/-! ## MqttClient: topic resolution and telemetry publishing -/

/-- Python `a or b` on an optional string configuration value: an absent
or empty explicit value falls through. -/
def strOrElse (explicit : Option Str) (fallback : Option Str) : Option Str :=
  match explicit with
  | some s => if s.isEmpty then fallback else some s
  | none => fallback

/-- `f"{base}/<suffix>" if base else None` from `MqttClient.__init__`. -/
def deriveTopic (base : Option Str) (suffix : Str) : Option Str :=
  match base with
  | some b => if b.isEmpty then none else some (b ++ '/' :: suffix)
  | none => none

/-- `self.temperature_topic` as resolved by `MqttClient.__init__`. -/
def mqtt_temperature_topic (cfgTemp cfgTelemetry : Option Str) : Option Str :=
  strOrElse cfgTemp (deriveTopic cfgTelemetry "temperature".data)

/-- `self.humidity_topic` as resolved by `MqttClient.__init__`. -/
def mqtt_humidity_topic (cfgHum cfgTelemetry : Option Str) : Option Str :=
  strOrElse cfgHum (deriveTopic cfgTelemetry "humidity".data)

/-- Python truthiness of an optional string (`not topic`). -/
def pyTruthyOpt (o : Option Str) : Bool :=
  match o with
  | some s => !s.isEmpty
  | none => false

inductive MqttErr where
  /-- `ValueError`: no temperature/humidity topics configured. -/
  | notConfigured
  /-- `RuntimeError`: the MQTT client is not connected. -/
  | notConnected
  /-- `ValueError`: sensor data not convertible to float. -/
  | invalidData
  deriving DecidableEq, Repr

/-- One telemetry message as passed to `mqtt_client.publish`: topic plus
the JSON payload fields (the float value modelled by its repr). -/
structure TelemetryMsg where
  topic : Str
  timestamp : Str
  device_id : Str
  value : Str
  unit : Str
  deriving DecidableEq, Repr

/-- `MqttClient.publish_telemetry`: topic check, client check, float
conversion of both readings, then one publish per quantity (temperature
then humidity).  `temp`/`hum` are the dictionary entries
(`none` models an absent or non-numeric entry whose `float(...)` raises). -/
def publish_telemetry (tt ht : Option Str) (clientConnected : Bool)
    (temp hum : Option Str) (timestamp deviceId : Str) :
    Except MqttErr (List TelemetryMsg) :=
  if !pyTruthyOpt tt || !pyTruthyOpt ht then .error .notConfigured
  else if !clientConnected then .error .notConnected
  else
    match temp, hum with
    | some tv, some hv =>
      .ok [⟨tt.getD [], timestamp, deviceId, tv, "°C".data⟩,
           ⟨ht.getD [], timestamp, deviceId, hv, "%".data⟩]
    | _, _ => .error .invalidData

/-! ## Sensor: rate-limited, bounded-retry acquisition

Time is modelled explicitly in seconds as rationals: the caller supplies
the current monotonic clock, and a sleep of `d` seconds advances the clock
by exactly `d` (readings themselves are instantaneous). -/

/-- `Sensor` state: whether the DHT capability was initialized, the
monotonic timestamp of the previous successful read
(`_last_read_timestamp`, initially 0.0), and the recorded last error. -/
structure SensorState where
  inited : Bool
  lastReadTs : ℚ
  lastError : Option Unit
  deriving DecidableEq

inductive SensorFatal where
  /-- `RuntimeError`: the DHT sensor was never initialized. -/
  | notInited
  deriving DecidableEq, Repr

/-- Everything one `read_data` call produces: the reading (`none` models
the Python `None` failure signal), the new sensor state, the clock at
return, the rate-limit sleep performed on entry, and how many 1 s retry
sleeps ran. -/
structure ReadResult where
  reading : Option (ℚ × ℚ)
  state : SensorState
  endTime : ℚ
  preSleep : ℚ
  retrySleeps : Nat
  deriving DecidableEq

/-- The retry loop of `Sensor.read_data`: up to `fuel` attempts; attempt
`i` yields `oracle i` (`none` models the sensor returning no valid values,
raising the retried `RuntimeError`); each failure records the error and
sleeps 1 s.  Returns (reading, state, clock, retry sleeps). -/
def read_attempts (oracle : Nat → Option (ℚ × ℚ)) :
    Nat → Nat → SensorState → ℚ → Option (ℚ × ℚ) × SensorState × ℚ × Nat
  | 0, _, st, t => (none, st, t, 0)
  | fuel + 1, i, st, t =>
    match oracle i with
    | some tv =>
      (some tv, { st with lastError := none, lastReadTs := t }, t, 0)
    | none =>
      let st2 := { st with lastError := some () }
      let rec2 := read_attempts oracle fuel (i + 1) st2 (t + 1)
      (rec2.1, rec2.2.1, rec2.2.2.1, rec2.2.2.2 + 1)

/-- `Sensor.read_data` (min_interval = 2.0 s, 3 attempts, 1 s between
attempts): raises if the capability is absent, otherwise sleeps exactly
the residual minimum-interval time and runs the retry loop. -/
def sensor_read_data (oracle : Nat → Option (ℚ × ℚ)) (st : SensorState)
    (now : ℚ) : Except SensorFatal ReadResult :=
  if !st.inited then .error .notInited
  else
    let elapsed := now - st.lastReadTs
    let pre : ℚ := if elapsed < 2 then 2 - elapsed else 0
    let r := read_attempts oracle 3 0 st (now + pre)
    .ok ⟨r.1, r.2.1, r.2.2.1, pre, r.2.2.2⟩

/-! ## WebServer._api_put_config

The JSON body is modelled at the parsed-value level (`json.loads` is
standard-library code outside this repository): `BodyInput.invalid` is a
body that raises in `json.loads`, `BodyInput.empty` a falsy body (parsed
as `{}`), and `BodyInput.parsed j` a successfully parsed value.  The
settings file is assumed readable: `load_settings()` returns the current
persisted document, which the handler receives as `doc`. -/

/-- Whether `pat` starts the string. -/
def startsWithL : Str → Str → Bool
  | [], _ => true
  | _ :: _, [] => false
  | p :: ps, c :: cs => if p = c then startsWithL ps cs else false

/-- Python `pat in s` substring test. -/
def hasSub (pat : Str) : Str → Bool
  | [] => pat.isEmpty
  | c :: cs => startsWithL pat (c :: cs) || hasSub pat cs

/-- A parsed JSON value (Python ints and floats kept apart, floats by
their repr, as in `PyVal`). -/
inductive Json where
  | str (s : Str)
  | jint (n : Int)
  | jfloat (r : Str)
  | jbool (b : Bool)
  | jnull
  | arr (xs : List Json)
  | obj (fields : List (Str × Json))

inductive BodyInput where
  | empty
  | invalid
  | parsed (j : Json)

/-- The Python scalars `ConfigManager._format_value` supports; `none`
models a value on which `_dump_toml` raises `TypeError`. -/
def jsonToPyVal : Json → Option PyVal
  | .str s => some (.str s)
  | .jint n => some (.int n)
  | .jfloat r => some (.float r)
  | .jbool b => some (.bool b)
  | _ => none

/-- Scalar document values as their JSON counterparts. -/
def pyToJson : PyVal → Json
  | .str s => .str s
  | .int n => .jint n
  | .float r => .jfloat r
  | .bool b => .jbool b

/-- First-match lookup in an insertion-ordered string-keyed mapping. -/
def lookupField (fields : List (Str × Json)) (k : Str) : Option Json :=
  match fields.find? (fun kv => decide (kv.1 = k)) with
  | some kv => some kv.2
  | none => none

/-- Document lookup (`settings.get(key)`). -/
def lookupDoc (d : Doc) (k : Str) : Option PyVal :=
  match d.find? (fun kv => decide (kv.1 = k)) with
  | some kv => some kv.2
  | none => none

/-- `headers.get(k, "")` on the lower-cased header mapping. -/
def getHeaderD (headers : List (Str × Str)) (k : Str) : Str :=
  match headers.find? (fun kv => decide (kv.1 = k)) with
  | some kv => kv.2
  | none => []

/-- `json.dumps({"error": {"code": code, "message": message}})` as built
by `WebServer._json_error`. -/
def json_error_body (code msg : Str) : Str :=
  "\x7b\"error\": \x7b\"code\": \"".data ++ code ++
    "\", \"message\": \"".data ++ msg ++ "\"\x7d\x7d".data

/-- Convert every update value to a storable scalar; `none` when any value
would make `_dump_toml` raise (so nothing is written). -/
def convertUpdates : List (Str × Json) → Option Doc
  | [] => some []
  | (k, j) :: rest =>
    match jsonToPyVal j, convertUpdates rest with
    | some v, some d => some ((k, v) :: d)
    | _, _ => none

/-- `settings.update(updates)` on the insertion-ordered mapping. -/
def dictUpdate (doc : Doc) (updates : Doc) : Doc :=
  updates.foldl (fun d kv => dictInsert d kv.1 kv.2) doc

/-- What `WebServer._api_put_config` hands back / writes: the status code
and body given to `_http_response` (every API response also carries the
CORS headers), the serialized bytes written to the settings file (if any),
and whether the deferred reset was armed. -/
structure PutResult where
  status : Nat
  body : Str
  newFile : Option Str
  pendingReset : Bool
  deriving DecidableEq, Repr

/-- The merge path of `_api_put_config` once `data` is known to be a dict:
`updates = data["config"] if "config" in data else data`, the
dict-and-nonempty check, scalar conversion, serialize, write, arm reset. -/
def putConfigMerge (doc : Doc) (fields : List (Str × Json)) : PutResult :=
  let updatesJ : Option Json :=
    if (lookupField fields "config".data).isSome then
      lookupField fields "config".data
    else some (.obj fields)
  match updatesJ with
  | some (.obj ufields) =>
    if ufields.isEmpty then
      ⟨400, json_error_body "invalid_request".data
        "No config fields provided".data, none, false⟩
    else
      match convertUpdates ufields with
      | some updates =>
        ⟨202, "\x7b\"status\": \"accepted\", \"rebooting\": true\x7d".data,
          some (dump_toml (dictUpdate doc updates)), true⟩
      | none =>
        ⟨500, json_error_body "internal_error".data
          "unsupported TOML value".data, none, false⟩
  | _ =>
    ⟨400, json_error_body "invalid_request".data
      "No config fields provided".data, none, false⟩

/-- `WebServer._api_put_config`. -/
def api_put_config (doc : Doc) (headers : List (Str × Str))
    (body : BodyInput) : PutResult :=
  let ct := toLowerL (getHeaderD headers "content-type".data)
  if !hasSub "application/json".data ct then
    ⟨415, json_error_body "unsupported_media_type".data
      "Expected application/json".data, none, false⟩
  else
    match body with
    | .invalid =>
      ⟨400, json_error_body "invalid_json".data
        "Body is not valid JSON".data, none, false⟩
    | .empty => putConfigMerge doc []
    | .parsed (.obj fields) => putConfigMerge doc fields
    | .parsed _ =>
      ⟨400, json_error_body "invalid_request".data
        "JSON object expected".data, none, false⟩

/-! ## WebServer.poll: failure isolation per accepted connection

The session after a successful `accept` is modelled with explicit
oracles for every fallible peer interaction: each `client.recv`, the
dispatch (`_handle_request`, which can raise — e.g. `_handle_post_request`
calls `load_settings()` outside any `try`), each `client.send`, and
`client.close`.  Request bytes are modelled as their
`decode("utf-8", "ignore")` text (that decode never raises).  The
`try`/`except`/`finally` structure of the source is translated
combinator-by-combinator: inner `except: break` loops swallow their
oracle's exception, the outer `except Exception` records it in
`_last_error`, and the `finally` block always attempts `close` and the
deferred reset. -/

/-- Result of one fallible Python step: a value or a raised exception. -/
inductive StepResult (α : Type) where
  | ok (a : α)
  | exc
  deriving DecidableEq, Repr

structure PollOracles where
  /-- `client.settimeout(1)` — wrapped in `try/except: pass`, so its
  outcome is swallowed either way. -/
  settimeoutResult : StepResult Unit
  /-- successive `client.recv` results (decoded text; `ok []` is `b""`). -/
  recvs : Nat → StepResult Str
  /-- `_handle_request` on the request text: response bytes or a raise. -/
  handler : Str → StepResult Str
  /-- successive `client.send` results: byte counts or a raise. -/
  sends : Nat → StepResult Nat
  /-- `client.close()` — wrapped in `try/except: pass`. -/
  closeResult : StepResult Unit

/-- The webserver state poll touches. -/
structure WebState where
  lastError : Option Unit
  pendingReset : Bool
  deriving DecidableEq, Repr

/-- What one poll call did. -/
structure PollOutcome where
  state : WebState
  closeAttempted : Bool
  resetAttempted : Bool
  sent : Nat
  deriving DecidableEq, Repr

/-- Position of the first occurrence of `pat` (Python `bytes.find`,
with `none` for -1). -/
def findSubPos (pat : Str) : Str → Option Nat
  | [] => if pat.isEmpty then some 0 else none
  | c :: cs =>
    if startsWithL pat (c :: cs) then some 0
    else match findSubPos pat cs with
      | some n => some (n + 1)
      | none => none

/-- The bounded header-read loop (`for _ in range(50)`): each recv error
or empty chunk breaks out silently; reading stops once the header
terminator appears.  Returns (buffer, next recv index, header end). -/
def headerLoop (recvs : Nat → StepResult Str) :
    Nat → Nat → Str → Str × Nat × Option Nat
  | 0, i, buf => (buf, i, none)
  | fuel + 1, i, buf =>
    match recvs i with
    | .exc => (buf, i + 1, none)
    | .ok [] => (buf, i + 1, none)
    | .ok chunk =>
      let buf2 := buf ++ chunk
      match findSubPos ['\r', '\n', '\r', '\n'] buf2 with
      | some idx => (buf2, i + 1, some idx)
      | none => headerLoop recvs fuel (i + 1) buf2

/-- Request text up to the first CRLF (`split("\r\n", 1)[0]`). -/
def takeUntilCRLF : Str → Str
  | [] => []
  | '\r' :: '\n' :: _ => []
  | c :: cs => c :: takeUntilCRLF cs

/-- `parts[0]` of the request line split on spaces. -/
def methodOf (data : Str) : Str :=
  (takeUntilCRLF data).takeWhile fun c => !decide (c = ' ')

/-- Python `s.split("\r\n")`. -/
def splitCRLF : Str → List Str
  | [] => [[]]
  | '\r' :: '\n' :: rest => [] :: splitCRLF rest
  | c :: cs =>
    match splitCRLF cs with
    | l :: ls => (c :: l) :: ls
    | [] => [[c]]

/-- The `Content-Length` scan of `poll`: first header line whose
lower-cased text starts with `content-length:`; a failing `int(...)`
falls back to 0. -/
def contentLengthOf (data : Str) : Int :=
  match (splitCRLF data).find?
      (fun line => startsWithL "content-length:".data (toLowerL line)) with
  | none => 0
  | some line =>
    match splitAtFirst ':' line with
    | some (_, rest) =>
      match pyIntParse (pyStrip rest) with
      | some n => n
      | none => 0
    | none => 0

/-- The body-read loop (`while to_read > 0`): each recv error or empty
chunk breaks out silently. -/
def bodyLoop (recvs : Nat → StepResult Str) :
    Nat → Nat → Str → Int → Str × Nat
  | 0, i, buf, _ => (buf, i)
  | fuel + 1, i, buf, toRead =>
    if toRead ≤ 0 then (buf, i)
    else match recvs i with
      | .exc => (buf, i + 1)
      | .ok [] => (buf, i + 1)
      | .ok chunk =>
        bodyLoop recvs fuel (i + 1) (buf ++ chunk) (toRead - chunk.length)

/-- The request text `poll` hands to `_handle_request`: header phase,
then — when a header end was seen, a positive `Content-Length` declared
and the method is POST/PUT — the body phase for the declared remainder.
(The whole `Content-Length` block sits in `try/except: pass` in the
source; every step of it is total here.) -/
def poll_request_text (o : PollOracles) : Str :=
  let hp := headerLoop o.recvs 50 0 []
  let data1 := hp.1
  let i1 := hp.2.1
  match hp.2.2 with
  | some hpos =>
    let cl := contentLengthOf data1
    if cl > 0 ∧ (methodOf data1 = "POST".data ∨ methodOf data1 = "PUT".data)
      then
      let have2 : Int := (data1.length : Int) - ((hpos : Int) + 4)
      let toRead := cl - max 0 have2
      (bodyLoop o.recvs toRead.toNat i1 data1 toRead).1
    else data1
  | none => data1

/-- The response-send loop (`while sent < total`): a send error or a
zero-byte send breaks out silently; returns the byte count sent. -/
def sendLoop (sends : Nat → StepResult Nat) :
    Nat → Nat → Nat → Nat → Nat
  | 0, _, sent, _ => sent
  | fuel + 1, i, sent, total =>
    if sent < total then
      match sends i with
      | .exc => sent
      | .ok 0 => sent
      | .ok n => sendLoop sends fuel (i + 1) (sent + n) total
    else sent

/-- `WebServer.poll` from just after a successful `accept`: the `try`
block reads, dispatches and sends; the `except Exception` arm records the
exception in `_last_error`; the `finally` arm always attempts
`client.close()` and, when a reset is pending, clears the flag and
attempts `microcontroller.reset()` (both `try/except: pass`). -/
def webserver_poll (o : PollOracles) (st : WebState) :
    StepResult PollOutcome :=
  let sessionResult : StepResult (WebState × Nat) :=
    match o.handler (poll_request_text o) with
    | .exc => .exc
    | .ok response =>
      .ok (st, sendLoop o.sends response.length 0 0 response.length)
  let afterTry : WebState × Nat :=
    match sessionResult with
    | .ok r => r
    | .exc => ({ st with lastError := some () }, 0)
  .ok ⟨{ afterTry.1 with pendingReset := false }, true,
    afterTry.1.pendingReset, afterTry.2⟩

/-! ## Conditions under which the TOML round-trip is exact -/

/-- The head character (if any) satisfies `p`. -/
def headSat (p : Char → Bool) (l : Str) : Bool :=
  match l.head? with
  | some a => p a
  | none => true

/-- The last character (if any) satisfies `p`. -/
def lastSat (p : Char → Bool) (l : Str) : Bool :=
  match l.getLast? with
  | some b => p b
  | none => true

/-- A key that survives the write/parse cycle: nonempty, no surrounding
whitespace, not starting with `#`, containing no `=` and no line-break
character. -/
def goodKey (k : Str) : Bool :=
  !k.isEmpty &&
  headSat (fun a => !pyIsSpace a && !decide (a = '#')) k &&
  lastSat (fun b => !pyIsSpace b) k &&
  !decide ('=' ∈ k) &&
  k.all (fun c => !breakChar c)

/-- A value that survives the write/parse cycle: strings must contain no
double quote and no line break; floats must carry a representation that
re-parses as a float (contains a dot, is accepted by `float(...)`, has no
surrounding whitespace, quotes or line breaks); ints and bools always do. -/
def goodVal : PyVal → Bool
  | .str s => !decide ('"' ∈ s) && s.all (fun c => !breakChar c)
  | .int _ => true
  | .bool _ => true
  | .float r =>
    pyFloatAccepts r && decide ('.' ∈ r) &&
    headSat (fun a => !pyIsSpace a && !decide (a = '"') && !decide (a = '\'')) r &&
    lastSat (fun b => !pyIsSpace b) r &&
    r.all (fun c => !breakChar c)

/-- A settings document with pairwise-distinct well-formed keys and
well-formed values. -/
def goodDoc (doc : Doc) : Bool :=
  decide (doc.map Prod.fst).Nodup &&
  doc.all fun kv => goodKey kv.1 && goodVal kv.2

/-- The serialized line of one document entry. -/
def lineOf (kv : Str × PyVal) : Str :=
  kv.1 ++ (' ' :: '=' :: ' ' :: format_value kv.2)

/-! ## Supporting lemmas about the string helpers -/

theorem dropWhile_of_head {p : Char → Bool} {l : Str}
    (h : ∀ a, l.head? = some a → p a = false) : l.dropWhile p = l := by
  cases l with
  | nil => rfl
  | cons c cs => simp [List.dropWhile_cons, h c rfl]

theorem pyStrip_noop {v : Str} {a b : Char}
    (hh : v.head? = some a) (ha : pyIsSpace a = false)
    (hl : v.getLast? = some b) (hb : pyIsSpace b = false) :
    pyStrip v = v := by
  have h1 : v.dropWhile pyIsSpace = v :=
    dropWhile_of_head (fun x hx => by rw [hx] at hh; cases hh; exact ha)
  have h2 : v.reverse.dropWhile pyIsSpace = v.reverse :=
    dropWhile_of_head (fun x hx => by
      rw [List.head?_reverse, hl] at hx; cases hx; exact hb)
  unfold pyStrip
  rw [h1, h2, List.reverse_reverse]

theorem mem_dropWhile_of_not {p : Char → Bool} {c : Char}
    (hpc : p c = false) : ∀ {l : Str}, c ∈ l → c ∈ l.dropWhile p := by
  intro l
  induction l with
  | nil => intro h; cases h
  | cons a t ih =>
    intro hc
    rw [List.dropWhile_cons]
    by_cases hpa : p a = true
    · simp only [hpa, if_true]
      rcases List.mem_cons.mp hc with rfl | hct
      · rw [hpa] at hpc; cases hpc
      · exact ih hct
    · simp only [Bool.not_eq_true] at hpa
      simp [hpa, hc]

theorem mem_pyStrip {v : Str} {c : Char} (hc : c ∈ v)
    (hcs : pyIsSpace c = false) : c ∈ pyStrip v := by
  unfold pyStrip
  rw [List.mem_reverse]
  exact mem_dropWhile_of_not hcs
    (by rw [List.mem_reverse]; exact mem_dropWhile_of_not hcs hc)

theorem mem_stripSign {l : Str} {c : Char} (hc : c ∈ l)
    (h1 : c ≠ '-') (h2 : c ≠ '+') : c ∈ (stripSign l).2 := by
  cases l with
  | nil => cases hc
  | cons a t =>
    unfold stripSign
    rcases List.mem_cons.mp hc with rfl | hct
    · simp [h1, h2]
    · by_cases ha : a = '-'
      · simp [ha, hct]
      · by_cases hb : a = '+' <;> simp [ha, hb, hct]

theorem mem_dgTail_rest {c : Char} (hc1 : c.isDigit = false) (hc2 : c ≠ '_') :
    ∀ l : Str, c ∈ l → c ∈ (dgTail l).2 := by
  intro l
  induction l using dgTail.induct with
  | case1 => intro h; cases h
  | case2 a ha =>
    intro hc
    rcases List.mem_cons.mp hc with rfl | h
    · rw [ha] at hc1; cases hc1
    · cases h
  | case3 a ha =>
    intro hc
    simpa [dgTail, ha] using hc
  | case4 a d cs2 ha ih =>
    intro hc
    have hrw : (dgTail (a :: d :: cs2)).2 = (dgTail (d :: cs2)).2 := by
      simp [dgTail, ha]
    rw [hrw]
    rcases List.mem_cons.mp hc with rfl | h
    · rw [ha] at hc1; cases hc1
    · exact ih h
  | case5 a d cs2 ha had ih =>
    intro hc
    have hrw : (dgTail (a :: d :: cs2)).2 = (dgTail cs2).2 := by
      simp [dgTail, ha, had]
    rw [hrw]
    rcases List.mem_cons.mp hc with rfl | h
    · exact absurd had.1 hc2
    · rcases List.mem_cons.mp h with rfl | h2
      · rw [had.2] at hc1; cases hc1
      · exact ih h2
  | case6 a d cs2 ha hno =>
    intro hc
    have hrw : (dgTail (a :: d :: cs2)).2 = a :: d :: cs2 := by
      simp [dgTail, ha, hno]
    rw [hrw]; exact hc

theorem mem_digitGroup_rest {c : Char} (hc1 : c.isDigit = false)
    (hc2 : c ≠ '_') {l : Str} (hc : c ∈ l) : c ∈ (digitGroup l).2 := by
  cases l with
  | nil => cases hc
  | cons a t =>
    by_cases ha : a.isDigit = true
    · have hrw : (digitGroup (a :: t)).2 = (dgTail t).2 := by
        simp [digitGroup, ha]
      rw [hrw]
      rcases List.mem_cons.mp hc with rfl | hct
      · rw [ha] at hc1; cases hc1
      · exact mem_dgTail_rest hc1 hc2 t hct
    · have hrw : (digitGroup (a :: t)).2 = a :: t := by
        simp [digitGroup, ha]
      rw [hrw]; exact hc

/-- A token containing a dot never parses as a Python integer. -/
theorem pyIntParse_of_dot {v : Str} (h : '.' ∈ v) : pyIntParse v = none := by
  have h1 : '.' ∈ pyStrip v := mem_pyStrip h (by decide)
  have h2 : '.' ∈ (stripSign (pyStrip v)).2 :=
    mem_stripSign h1 (by decide) (by decide)
  have h3 : '.' ∈ (digitGroup (stripSign (pyStrip v)).2).2 :=
    mem_digitGroup_rest (by decide) (by decide) h2
  have h4 : (digitGroup (stripSign (pyStrip v)).2).2 ≠ [] :=
    fun hnil => by rw [hnil] at h3; cases h3
  unfold pyIntParse
  have h5 : (digitGroup (stripSign (pyStrip v)).2).2.isEmpty = false := by
    cases hrest : (digitGroup (stripSign (pyStrip v)).2).2 with
    | nil => exact absurd hrest h4
    | cons x xs => rfl
  simp [h5]

/-! ## Character-class facts -/

theorem isDigit_toNat {c : Char} (h : c.isDigit = true) :
    48 ≤ c.toNat ∧ c.toNat ≤ 57 := by
  simp [Char.isDigit] at h
  exact ⟨by exact_mod_cast h.1, by exact_mod_cast h.2⟩

theorem toLower_of_isDigit {c : Char} (h : c.isDigit = true) :
    c.toLower = c := by
  have h2 := isDigit_toNat h
  simp only [Char.toLower]
  rw [if_neg]
  omega

theorem isDigit_not_space {c : Char} (h : c.isDigit = true) :
    pyIsSpace c = false := by
  by_contra hsp
  simp only [Bool.not_eq_false] at hsp
  simp only [pyIsSpace, Bool.or_eq_true, decide_eq_true_eq] at hsp
  rcases hsp with ((((rfl | rfl) | rfl) | rfl) | rfl) | rfl <;> simp at h

theorem isDigit_not_break {c : Char} (h : c.isDigit = true) :
    breakChar c = false := by
  by_contra hbk
  simp only [Bool.not_eq_false] at hbk
  simp only [breakChar, Bool.or_eq_true, decide_eq_true_eq] at hbk
  rcases hbk with
    ((((((((rfl | rfl) | rfl) | rfl) | rfl) | rfl) | rfl) | rfl) | rfl) | rfl <;>
    simp at h

theorem isDigit_ne {c x : Char} (h : c.isDigit = true)
    (hx : x.isDigit = false) : c ≠ x := by
  intro he
  rw [he, hx] at h
  cases h

/-! ## Decimal printing round-trips through decimal parsing -/

theorem natDigits_ne_nil (n : Nat) : natDigits n ≠ [] := by
  rw [natDigits_eq]
  by_cases h : n < 10 <;> simp [h]

theorem natDigits_all_digit (n : Nat) :
    ∀ c ∈ natDigits n, c.isDigit = true := by
  induction n using Nat.strong_induction_on with
  | _ n ih =>
    rw [natDigits_eq]
    by_cases h : n < 10
    · simp only [h, if_true]
      intro c hc
      rcases List.mem_singleton.mp hc with rfl
      interval_cases n <;> decide
    · simp only [h, if_false]
      intro c hc
      rcases List.mem_append.mp hc with h1 | h2
      · exact ih (n / 10) (Nat.div_lt_self (by omega) (by omega)) c h1
      · rcases List.mem_singleton.mp h2 with rfl
        have : n % 10 < 10 := Nat.mod_lt _ (by omega)
        interval_cases hm : n % 10 <;> simp [hm, digitChar]

theorem digitVal_digitChar {d : Nat} (h : d < 10) :
    digitVal (digitChar d) = d := by
  interval_cases d <;> decide

theorem foldl_digits_natDigits (n : Nat) : ∀ a : Nat,
    (natDigits n).foldl (fun a c => a * 10 + digitVal c) a =
      a * 10 ^ (natDigits n).length + n := by
  induction n using Nat.strong_induction_on with
  | _ n ih =>
    intro a
    rw [natDigits_eq]
    by_cases h : n < 10
    · simp [h, List.foldl_cons, digitVal_digitChar h]
    · simp only [h, if_false, List.foldl_append, List.foldl_cons,
        List.foldl_nil, List.length_append, List.length_singleton]
      rw [ih (n / 10) (Nat.div_lt_self (by omega) (by omega)) a]
      rw [digitVal_digitChar (Nat.mod_lt _ (by omega))]
      have hmod := Nat.div_add_mod n 10
      ring_nf
      omega

theorem digitsToNat_natDigits (n : Nat) :
    digitsToNat (natDigits n) = n := by
  unfold digitsToNat
  rw [foldl_digits_natDigits n 0]
  simp

theorem dgTail_all_digits : ∀ l : Str, (∀ c ∈ l, c.isDigit = true) →
    dgTail l = (l, []) := by
  intro l
  induction l using dgTail.induct with
  | case1 => intro _; rfl
  | case2 a ha => intro _; simp [dgTail, ha]
  | case3 a ha =>
    intro hall
    exact absurd (hall a (List.mem_singleton_self a)) ha
  | case4 a d cs2 ha ih =>
    intro hall
    have := ih fun c hc => hall c (List.mem_cons_of_mem a hc)
    simp [dgTail, ha, this]
  | case5 a d cs2 ha _ _ =>
    intro hall
    exact absurd (hall a (List.mem_cons_self a _)) ha
  | case6 a d cs2 ha _ =>
    intro hall
    exact absurd (hall a (List.mem_cons_self a _)) ha

theorem digitGroup_all_digits {l : Str} (hall : ∀ c ∈ l, c.isDigit = true) :
    digitGroup l = (l, []) := by
  cases l with
  | nil => rfl
  | cons a t =>
    have ha := hall a (List.mem_cons_self a t)
    have ht := dgTail_all_digits t fun c hc => hall c (List.mem_cons_of_mem a hc)
    simp [digitGroup, ha, ht]

/-- `pyStrip` is the identity when both end characters are non-space. -/
theorem pyStrip_noop_mem {v : Str}
    (hh : ∀ a, v.head? = some a → pyIsSpace a = false)
    (hl : ∀ b, v.getLast? = some b → pyIsSpace b = false) :
    pyStrip v = v := by
  cases hhd : v.head? with
  | none =>
    rcases List.head?_eq_none_iff.mp hhd with rfl
    rfl
  | some a =>
    cases hlast : v.getLast? with
    | none =>
      rcases List.getLast?_eq_none_iff.mp hlast with rfl
      rfl
    | some b =>
      exact pyStrip_noop hhd (hh a hhd) hlast (hl b hlast)

theorem pyStrip_all_digits {l : Str} (hall : ∀ c ∈ l, c.isDigit = true) :
    pyStrip l = l := by
  apply pyStrip_noop_mem
  · intro a ha
    exact isDigit_not_space (hall a (List.mem_of_mem_head? (ha ▸ rfl)))
  · intro b hb
    exact isDigit_not_space (hall b (List.mem_of_mem_getLast? (hb ▸ rfl)))

theorem natDigits_isEmpty (m : Nat) : (natDigits m).isEmpty = false := by
  cases hd : natDigits m with
  | nil => exact absurd hd (natDigits_ne_nil m)
  | cons x xs => rfl

/-- Python `int(str(n)) == n`, over the embedding. -/
theorem pyIntParse_pyIntStr (n : Int) : pyIntParse (pyIntStr n) = some n := by
  have hdigs := natDigits_all_digit n.natAbs
  have hne := natDigits_ne_nil n.natAbs
  have hdg := digitGroup_all_digits hdigs
  have hie := natDigits_isEmpty n.natAbs
  by_cases hneg : n < 0
  · have hstr : pyIntStr n = '-' :: natDigits n.natAbs := by
      simp [pyIntStr, hneg]
    have hstrip : pyStrip (pyIntStr n) = pyIntStr n := by
      rw [hstr]
      apply pyStrip_noop_mem
      · intro a ha
        rw [List.head?_cons] at ha
        cases ha; decide
      · intro b hb
        have hbm : b ∈ '-' :: natDigits n.natAbs :=
          List.mem_of_mem_getLast? (hb ▸ rfl)
        rcases List.mem_cons.mp hbm with rfl | hbm2
        · have : ('-' :: natDigits n.natAbs).getLast? =
              (natDigits n.natAbs).getLast? := by
            cases hd : natDigits n.natAbs with
            | nil => exact absurd hd hne
            | cons x xs => exact List.getLast?_cons_cons
          rw [this] at hb
          have hmem : ('-' : Char) ∈ natDigits n.natAbs :=
            List.mem_of_mem_getLast? (hb ▸ rfl)
          have := hdigs '-' hmem
          simp at this
        · exact isDigit_not_space (hdigs b hbm2)
    have hsign : stripSign (pyIntStr n) = (true, natDigits n.natAbs) := by
      rw [hstr]; simp [stripSign]
    simp only [pyIntParse, hstrip, hsign, hdg, hie, List.isEmpty_nil,
      Bool.not_true, Bool.or_false, Bool.false_eq_true, if_false, if_true,
      digitsToNat_natDigits]
    congr 1
    simp only [Int.ofNat_eq_coe]
    omega
  · have hstr : pyIntStr n = natDigits n.natAbs := by
      simp [pyIntStr, hneg]
    obtain ⟨d0, t, hshape⟩ : ∃ d0 t, natDigits n.natAbs = d0 :: t := by
      cases hd : natDigits n.natAbs with
      | nil => exact absurd hd hne
      | cons x xs => exact ⟨x, xs, rfl⟩
    have hstrip : pyStrip (pyIntStr n) = pyIntStr n := by
      rw [hstr]; exact pyStrip_all_digits hdigs
    have hd0 : d0.isDigit = true := hdigs d0 (hshape ▸ List.mem_cons_self d0 t)
    have hsign : stripSign (pyIntStr n) = (false, natDigits n.natAbs) := by
      rw [hstr, hshape]
      simp [stripSign, isDigit_ne hd0 (by decide : ('-').isDigit = false),
        isDigit_ne hd0 (by decide : ('+').isDigit = false)]
    simp only [pyIntParse, hstrip, hsign, hdg, hie, List.isEmpty_nil,
      Bool.not_true, Bool.or_false, Bool.false_eq_true, if_false,
      digitsToNat_natDigits]
    congr 1
    simp only [Int.ofNat_eq_coe]
    omega

theorem pyFloatAccepts_head_bad {v : Str} {q : Char}
    (hh : v.head? = some q) (hstrip : pyStrip v = v)
    (h1 : q ≠ '-') (h2 : q ≠ '+') (hdigit : q.isDigit = false)
    (hdot : q ≠ '.') (hi : q.toLower ≠ 'i') (hn : q.toLower ≠ 'n') :
    pyFloatAccepts v = false := by
  obtain ⟨t, rfl⟩ : ∃ t, v = q :: t := by
    cases v with
    | nil => cases hh
    | cons x xs => cases hh; exact ⟨xs, rfl⟩
  unfold pyFloatAccepts
  rw [hstrip]
  have hsign : stripSign (q :: t) = (false, q :: t) := by
    simp [stripSign, h1, h2]
  have hdg : digitGroup (q :: t) = ([], q :: t) := by
    simp [digitGroup, hdigit]
  have htail : floatTail false (q :: t) = false := by
    simp [floatTail, hdot]
  simp [hsign, hdg, htail, toLowerL, hi, hn]

theorem pyIntParse_head_bad {v : Str} {q : Char}
    (hh : v.head? = some q) (hstrip : pyStrip v = v)
    (h1 : q ≠ '-') (h2 : q ≠ '+') (hdigit : q.isDigit = false) :
    pyIntParse v = none := by
  obtain ⟨t, rfl⟩ : ∃ t, v = q :: t := by
    cases v with
    | nil => cases hh
    | cons x xs => cases hh; exact ⟨xs, rfl⟩
  unfold pyIntParse
  rw [hstrip]
  have hsign : stripSign (q :: t) = (false, q :: t) := by
    simp [stripSign, h1, h2]
  have hdg : digitGroup (q :: t) = ([], q :: t) := by
    simp [digitGroup, hdigit]
  simp [hsign, hdg]

/-! ## One formatted value parses back to itself -/

theorem escapeQuotes_of_no_quote {s : Str} (h : '"' ∉ s) :
    escapeQuotes s = s := by
  induction s with
  | nil => rfl
  | cons c cs ih =>
    have hc : c ≠ '"' := fun hcon => h (hcon ▸ List.mem_cons_self c cs)
    have hcs : '"' ∉ cs := fun hcon => h (List.mem_cons_of_mem c hcon)
    simp [escapeQuotes, hc, ih hcs]

theorem pyIntStr_chars (n : Int) :
    ∀ c ∈ pyIntStr n, c = '-' ∨ c.isDigit = true := by
  intro c hc
  unfold pyIntStr at hc
  by_cases hneg : n < 0
  · simp only [hneg, if_true] at hc
    rcases List.mem_cons.mp hc with rfl | h2
    · exact Or.inl rfl
    · exact Or.inr (natDigits_all_digit n.natAbs c h2)
  · simp only [hneg, if_false] at hc
    exact Or.inr (natDigits_all_digit n.natAbs c hc)

theorem head_toLowerL_eq {v : Str} {c : Char} {rest : Str}
    (h : toLowerL v = c :: rest) : ∃ a t, v = a :: t ∧ a.toLower = c := by
  cases v with
  | nil => cases h
  | cons a t =>
    refine ⟨a, t, rfl, ?_⟩
    simpa [toLowerL] using congrArg List.head? h

theorem mem_toLowerL_of_fix {v : Str} {c : Char} (hc : c ∈ v)
    (hfix : c.toLower = c) : c ∈ toLowerL v := by
  have := List.mem_map_of_mem Char.toLower hc
  rw [hfix] at this
  exact this

theorem convert_format_int (n : Int) :
    convert_value (pyIntStr n) = .int n := by
  have hchars := pyIntStr_chars n
  obtain ⟨h0, t, hshape⟩ : ∃ h0 t, pyIntStr n = h0 :: t := by
    cases hs : pyIntStr n with
    | nil =>
      unfold pyIntStr at hs
      by_cases hneg : n < 0
      · simp [hneg] at hs
      · simp only [hneg, if_false] at hs
        exact absurd hs (natDigits_ne_nil n.natAbs)
    | cons x xs => exact ⟨x, xs, rfl⟩
  have hh0 : h0 = '-' ∨ h0.isDigit = true :=
    hchars h0 (hshape ▸ List.mem_cons_self h0 t)
  have hno_quote : ¬(pyIntStr n).head? = some '"' := by
    rw [hshape, List.head?_cons]
    intro hcon
    cases hcon
    rcases hh0 with h | h
    · cases h
    · simp at h
  have hno_squote : ¬(pyIntStr n).head? = some '\'' := by
    rw [hshape, List.head?_cons]
    intro hcon
    cases hcon
    rcases hh0 with h | h
    · cases h
    · simp at h
  have hlow : ∀ (w0 : Char) (wrest : Str), w0 ≠ '-' → w0.isDigit = false →
      toLowerL (pyIntStr n) ≠ w0 :: wrest := by
    intro w0 wrest hw1 hw2 hcon
    obtain ⟨a, t2, hat, halow⟩ := head_toLowerL_eq hcon
    have ham : a ∈ pyIntStr n := hat ▸ List.mem_cons_self a t2
    rcases hchars a ham with rfl | hd
    · rw [show ('-').toLower = '-' from by decide] at halow
      exact hw1 halow.symm
    · rw [toLower_of_isDigit hd] at halow
      rw [← halow, hd] at hw2
      cases hw2
  have hdot : '.' ∉ pyIntStr n := by
    intro hcon
    rcases hchars '.' hcon with h | h
    · cases h
    · simp at h
  simp only [convert_value, hno_quote, hno_squote, false_and, if_false,
    hlow 't' ['r', 'u', 'e'] (by decide) (by decide),
    hlow 'f' ['a', 'l', 's', 'e'] (by decide) (by decide),
    hdot, pyIntParse_pyIntStr n]

theorem convert_format_str {s : Str} (h : '"' ∉ s) :
    convert_value (format_value (.str s)) = .str s := by
  have hesc : escapeQuotes s = s := escapeQuotes_of_no_quote h
  have hshape : format_value (.str s) = ('"' :: s) ++ ['"'] := by
    simp [format_value, hesc]
  have hhead : (format_value (.str s)).head? = some '"' := by
    rw [hshape]; rfl
  have hlast : (format_value (.str s)).getLast? = some '"' :=
    hshape ▸ List.getLast?_concat _
  simp only [convert_value, hhead, hlast, and_self, if_true]
  rw [hshape]
  simp only [List.cons_append, List.drop_succ_cons, List.drop_zero]
  rw [List.dropLast_concat]

theorem convert_format_float {r : Str} (hacc : pyFloatAccepts r = true)
    (hdot : '.' ∈ r)
    (hhead : headSat (fun a => !pyIsSpace a && !decide (a = '"') &&
      !decide (a = '\'')) r = true)
    (hlast : lastSat (fun b => !pyIsSpace b) r = true) :
    convert_value r = .float r := by
  obtain ⟨h0, t, hshape⟩ : ∃ h0 t, r = h0 :: t := by
    cases r with
    | nil => cases hdot
    | cons x xs => exact ⟨x, xs, rfl⟩
  have hh := hhead
  rw [hshape] at hh
  simp only [headSat, List.head?_cons, Bool.and_eq_true, Bool.not_eq_true',
    decide_eq_false_iff_not] at hh
  have hstrip : pyStrip r = r := by
    apply pyStrip_noop_mem
    · intro a ha
      rw [hshape, List.head?_cons] at ha
      cases ha
      exact hh.1.1
    · intro b hb
      unfold lastSat at hlast
      rw [hb] at hlast
      simpa using hlast
  have hno_quote : ¬r.head? = some '"' := by
    rw [hshape, List.head?_cons]
    intro hcon; cases hcon
    exact hh.1.2 rfl
  have hno_squote : ¬r.head? = some '\'' := by
    rw [hshape, List.head?_cons]
    intro hcon; cases hcon
    exact hh.2 rfl
  have hlow : ∀ (w : Str), '.' ∉ w → toLowerL r ≠ w := by
    intro w hw hcon
    exact hw (hcon ▸ mem_toLowerL_of_fix hdot (by decide))
  simp only [convert_value, hno_quote, hno_squote, false_and, if_false,
    hlow ['t', 'r', 'u', 'e'] (by decide),
    hlow ['f', 'a', 'l', 's', 'e'] (by decide), hdot, if_true, hacc,
    hstrip]

theorem head?_append_left {l1 l2 : Str} (h : l1 ≠ []) :
    (l1 ++ l2).head? = l1.head? := by
  cases l1 with
  | nil => exact absurd rfl h
  | cons a t => rfl

theorem format_value_ne_nil {v : PyVal} (hv : goodVal v = true) :
    format_value v ≠ [] := by
  cases v with
  | str s => simp [format_value]
  | bool b => cases b <;> simp [format_value]
  | int n =>
    simp only [format_value]
    unfold pyIntStr
    by_cases hneg : n < 0
    · simp [hneg]
    · simp only [hneg, if_false]
      exact natDigits_ne_nil n.natAbs
  | float r =>
    simp only [goodVal, Bool.and_eq_true, decide_eq_true_eq] at hv
    intro hcon
    have hr : r = [] := hcon
    exact absurd (hr ▸ hv.1.1.1.2) (List.not_mem_nil '.')

theorem format_value_head_nonspace {v : PyVal} (hv : goodVal v = true) :
    ∀ a, (format_value v).head? = some a → pyIsSpace a = false := by
  intro a ha
  cases v with
  | str s => cases ha; decide
  | bool b => cases b <;> (cases ha; decide)
  | int n =>
    have ham : a ∈ format_value (.int n) :=
      List.mem_of_mem_head? (ha ▸ rfl)
    rcases pyIntStr_chars n a ham with rfl | hd
    · decide
    · exact isDigit_not_space hd
  | float r =>
    simp only [goodVal, Bool.and_eq_true] at hv
    have := hv.1.1.2
    unfold headSat at this
    simp only [format_value] at ha
    rw [ha] at this
    simp only [Bool.and_eq_true, Bool.not_eq_true'] at this
    exact this.1.1

theorem format_value_last_nonspace {v : PyVal} (hv : goodVal v = true) :
    ∀ b, (format_value v).getLast? = some b → pyIsSpace b = false := by
  intro b hb
  cases v with
  | str s =>
    have hshape : format_value (.str s) = ('"' :: escapeQuotes s) ++ ['"'] := by
      simp [format_value]
    rw [hshape, List.getLast?_concat] at hb
    cases hb; decide
  | bool bb => cases bb <;> (cases hb; decide)
  | int n =>
    have hbm : b ∈ format_value (.int n) :=
      List.mem_of_mem_getLast? (hb ▸ rfl)
    rcases pyIntStr_chars n b hbm with rfl | hd
    · decide
    · exact isDigit_not_space hd
  | float r =>
    simp only [goodVal, Bool.and_eq_true] at hv
    have := hv.1.2
    unfold lastSat at this
    simp only [format_value] at hb
    rw [hb] at this
    simpa using this

theorem format_value_no_break {v : PyVal} (hv : goodVal v = true) :
    ∀ c ∈ format_value v, breakChar c = false := by
  intro c hc
  cases v with
  | str s =>
    simp only [goodVal, Bool.and_eq_true, Bool.not_eq_true',
      decide_eq_false_iff_not] at hv
    rw [show format_value (.str s) = '"' :: (escapeQuotes s ++ ['"']) from rfl,
      escapeQuotes_of_no_quote hv.1] at hc
    rcases List.mem_cons.mp hc with rfl | hc2
    · decide
    · rcases List.mem_append.mp hc2 with hc3 | hc4
      · have := List.all_eq_true.mp hv.2 c hc3
        simpa using this
      · rcases List.mem_singleton.mp hc4 with rfl; decide
  | bool b =>
    cases b with
    | false =>
      have h4 : format_value (.bool false) = ['f', 'a', 'l', 's', 'e'] := rfl
      rw [h4] at hc
      simp only [List.mem_cons, List.not_mem_nil, or_false] at hc
      rcases hc with rfl | rfl | rfl | rfl | rfl <;> decide
    | true =>
      have h4 : format_value (.bool true) = ['t', 'r', 'u', 'e'] := rfl
      rw [h4] at hc
      simp only [List.mem_cons, List.not_mem_nil, or_false] at hc
      rcases hc with rfl | rfl | rfl | rfl <;> decide
  | int n =>
    rcases pyIntStr_chars n c hc with rfl | hd
    · decide
    · exact isDigit_not_break hd
  | float r =>
    simp only [goodVal, Bool.and_eq_true] at hv
    have := List.all_eq_true.mp hv.2 c hc
    simpa using this

/-- A well-formed value parses back to itself. -/
theorem convert_format {v : PyVal} (hv : goodVal v = true) :
    convert_value (format_value v) = v := by
  cases v with
  | str s =>
    simp only [goodVal, Bool.and_eq_true, Bool.not_eq_true',
      decide_eq_false_iff_not] at hv
    exact convert_format_str hv.1
  | int n => exact convert_format_int n
  | float r =>
    simp only [goodVal, Bool.and_eq_true, decide_eq_true_eq] at hv
    exact convert_format_float hv.1.1.1.1 hv.1.1.1.2 hv.1.1.2 hv.1.2
  | bool b => cases b <;> decide

/-- C3: `ConfigManager._convert_value` implements exactly the claimed
case analysis — quote-stripping, case-insensitive booleans, dotted floats,
integers, raw fallback — for every input token. -/
theorem convert_value_matches_claim (v : Str) :
    convert_value v = convert_value_claim v := by
  by_cases hq : isQuoted v
  · have hdq : pyFloatAccepts v = false ∧ pyIntParse v = none := by
      rcases hq with ⟨hh, hl⟩ | ⟨hh, hl⟩
      · have hstrip : pyStrip v = v :=
          pyStrip_noop hh (by decide) hl (by decide)
        exact ⟨pyFloatAccepts_head_bad hh hstrip (by decide) (by decide)
            (by decide) (by decide) (by decide) (by decide),
          pyIntParse_head_bad hh hstrip (by decide) (by decide) (by decide)⟩
      · have hstrip : pyStrip v = v :=
          pyStrip_noop hh (by decide) hl (by decide)
        exact ⟨pyFloatAccepts_head_bad hh hstrip (by decide) (by decide)
            (by decide) (by decide) (by decide) (by decide),
          pyIntParse_head_bad hh hstrip (by decide) (by decide) (by decide)⟩
    rcases hq' : hq with ⟨hh, hl⟩ | ⟨hh, hl⟩
    · simp [convert_value, convert_value_claim, hh, hl, hdq.1, hdq.2,
        isQuoted, stripOuter]
    · have hne : v.head? ≠ some '"' := by
        rw [hh]; intro hcon; cases hcon
      simp [convert_value, convert_value_claim, hh, hl, hne, hdq.1, hdq.2,
        isQuoted, stripOuter]
  · have hq1 : ¬(v.head? = some '"' ∧ v.getLast? = some '"') :=
      fun hcon => hq (Or.inl hcon)
    have hq2 : ¬(v.head? = some '\'' ∧ v.getLast? = some '\'') :=
      fun hcon => hq (Or.inr hcon)
    by_cases ht : toLowerL v = ['t', 'r', 'u', 'e']
    · simp [convert_value, convert_value_claim, hq, hq1, hq2, ht]
    · by_cases hf : toLowerL v = ['f', 'a', 'l', 's', 'e']
      · simp [convert_value, convert_value_claim, hq, hq1, hq2, ht, hf]
      · by_cases hd : '.' ∈ v
        · by_cases hacc : pyFloatAccepts v = true
          · simp [convert_value, convert_value_claim, hq, hq1, hq2, ht, hf,
              hd, hacc]
          · have hint : pyIntParse v = none := pyIntParse_of_dot hd
            simp only [Bool.not_eq_true] at hacc
            simp [convert_value, convert_value_claim, hq, hq1, hq2, ht, hf,
              hd, hacc, hint]
        · cases hpi : pyIntParse v with
          | none =>
            simp [convert_value, convert_value_claim, hq, hq1, hq2, ht, hf,
              hd, hpi]
          | some n =>
            simp [convert_value, convert_value_claim, hq, hq1, hq2, ht, hf,
              hd, hpi]

/-! ## Parsing a dumped document recovers it -/

theorem splitAtFirst_append {sep : Char} {l1 : Str} (h : sep ∉ l1) (l2 : Str) :
    splitAtFirst sep (l1 ++ sep :: l2) = some (l1, l2) := by
  induction l1 with
  | nil => simp [splitAtFirst]
  | cons c t ih =>
    have hc : c ≠ sep := fun hcon => h (hcon ▸ List.mem_cons_self c t)
    have ht : sep ∉ t := fun hcon => h (List.mem_cons_of_mem c hcon)
    simp [splitAtFirst, hc, ih ht]

theorem pyStrip_append_space {k : Str} (hne : k ≠ [])
    (hh : ∀ a, k.head? = some a → pyIsSpace a = false)
    (hl : ∀ b, k.getLast? = some b → pyIsSpace b = false) :
    pyStrip (k ++ [' ']) = k := by
  unfold pyStrip
  have h1 : (k ++ [' ']).dropWhile pyIsSpace = k ++ [' '] :=
    dropWhile_of_head fun a ha => by
      rw [head?_append_left hne] at ha; exact hh a ha
  have h2 : (k ++ [' ']).reverse = ' ' :: k.reverse := by simp
  have h3 : List.dropWhile pyIsSpace (' ' :: k.reverse) =
      List.dropWhile pyIsSpace k.reverse := by
    rw [List.dropWhile_cons]
    simp [show pyIsSpace ' ' = true from rfl]
  have h4 : k.reverse.dropWhile pyIsSpace = k.reverse :=
    dropWhile_of_head fun b hb => by
      rw [List.head?_reverse] at hb; exact hl b hb
  rw [h1, h2, h3, h4, List.reverse_reverse]

theorem pyStrip_cons_space {f : Str}
    (hh : ∀ a, f.head? = some a → pyIsSpace a = false)
    (hl : ∀ b, f.getLast? = some b → pyIsSpace b = false) :
    pyStrip (' ' :: f) = f := by
  unfold pyStrip
  have h1 : List.dropWhile pyIsSpace (' ' :: f) = f := by
    rw [List.dropWhile_cons]
    simp only [show pyIsSpace ' ' = true from rfl, if_true]
    exact dropWhile_of_head fun a ha => hh a ha
  have h2 : f.reverse.dropWhile pyIsSpace = f.reverse :=
    dropWhile_of_head fun b hb => by
      rw [List.head?_reverse] at hb; exact hl b hb
  rw [h1, h2, List.reverse_reverse]

/-- Parsing the serialized line of a well-formed entry assigns exactly that
key to exactly that value. -/
theorem parseLineStep_lineOf (acc : Doc) (k : Str) (v : PyVal)
    (hk : goodKey k = true) (hv : goodVal v = true) :
    parseLineStep acc (lineOf (k, v)) = dictInsert acc k v := by
  simp only [goodKey, Bool.and_eq_true, Bool.not_eq_true',
    decide_eq_false_iff_not] at hk
  obtain ⟨⟨⟨⟨hkE, hkH⟩, hkL⟩, hkEq⟩, hkBrk⟩ := hk
  have hne : k ≠ [] := by
    intro hcon
    rw [hcon] at hkE
    simp at hkE
  have hkHead : ∀ a, k.head? = some a → pyIsSpace a = false ∧ a ≠ '#' := by
    intro a ha
    unfold headSat at hkH
    rw [ha] at hkH
    simpa [Bool.and_eq_true, Bool.not_eq_true'] using hkH
  have hkLast : ∀ b, k.getLast? = some b → pyIsSpace b = false := by
    intro b hb
    unfold lastSat at hkL
    rw [hb] at hkL
    simpa using hkL
  have hfne := format_value_ne_nil hv
  have hfh := format_value_head_nonspace hv
  have hfl := format_value_last_nonspace hv
  have hassoc : lineOf (k, v) =
      (k ++ [' ', '=', ' ']) ++ format_value v := by
    simp [lineOf]
  have hstripLine : pyStrip (lineOf (k, v)) = lineOf (k, v) := by
    apply pyStrip_noop_mem
    · intro a ha
      rw [show lineOf (k, v) =
          k ++ (' ' :: '=' :: ' ' :: format_value v) from rfl,
        head?_append_left hne] at ha
      exact (hkHead a ha).1
    · intro b hb
      rw [hassoc, List.getLast?_append_of_ne_nil _ hfne] at hb
      exact hfl b hb
  have hempty : (lineOf (k, v)).isEmpty = false := by
    cases hk0 : k with
    | nil => exact absurd hk0 hne
    | cons k0 kt => simp [lineOf, hk0]
  have hhash : ¬(lineOf (k, v)).head? = some '#' := by
    rw [show lineOf (k, v) =
        k ++ (' ' :: '=' :: ' ' :: format_value v) from rfl,
      head?_append_left hne]
    intro hcon
    exact (hkHead '#' hcon).2 rfl
  have hsplit : splitAtFirst '=' (lineOf (k, v)) =
      some (k ++ [' '], ' ' :: format_value v) := by
    have hshape : lineOf (k, v) =
        (k ++ [' ']) ++ '=' :: (' ' :: format_value v) := by
      simp [lineOf]
    rw [hshape]
    apply splitAtFirst_append
    intro hcon
    rcases List.mem_append.mp hcon with h1 | h2
    · exact hkEq h1
    · rcases List.mem_singleton.mp h2 with h3
      cases h3
  have hstripKey : pyStrip (k ++ [' ']) = k :=
    pyStrip_append_space hne (fun a ha => (hkHead a ha).1) hkLast
  have hstripVal : pyStrip (' ' :: format_value v) = format_value v :=
    pyStrip_cons_space hfh hfl
  simp only [parseLineStep, hstripLine, hempty, hhash, if_false,
    Bool.false_eq_true, hsplit, hstripKey, hstripVal, convert_format hv]

theorem joinNL_cons_of_ne_nil {l : Str} {ls : List Str} (h : ls ≠ []) :
    joinNL (l :: ls) = l ++ '\n' :: joinNL ls := by
  cases ls with
  | nil => exact absurd rfl h
  | cons x xs => rfl

theorem splitlinesAux_line : ∀ l : Str, (∀ c ∈ l, breakChar c = false) →
    ∀ rest acc : Str,
    splitlinesAux (l ++ '\n' :: rest) acc =
      (acc.reverse ++ l) :: splitlinesAux rest [] := by
  intro l
  induction l with
  | nil =>
    intro _ rest acc
    cases rest with
    | nil => simp [splitlinesAux, (by decide : breakChar '\n' = true)]
    | cons r0 rs =>
      simp [splitlinesAux, (by decide : breakChar '\n' = true),
        (by decide : ¬('\n' = '\r'))]
  | cons c t ih =>
    intro hl rest acc
    have hc : breakChar c = false := hl c (List.mem_cons_self c t)
    have hcr : c ≠ '\r' := by
      intro hcon
      rw [hcon] at hc
      exact absurd hc (by decide)
    have ht : ∀ x ∈ t, breakChar x = false :=
      fun x hx => hl x (List.mem_cons_of_mem c hx)
    cases t with
    | nil =>
      have hstep : splitlinesAux (c :: '\n' :: rest) acc =
          splitlinesAux ('\n' :: rest) (c :: acc) := by
        simp [splitlinesAux, hcr, hc]
      have := ih (by intro x hx; cases hx) rest (c :: acc)
      simp only [List.nil_append] at this
      simp only [List.cons_append, List.nil_append, hstep, this,
        List.reverse_cons, List.append_assoc, List.singleton_append]
    | cons d ts =>
      have hstep : splitlinesAux (c :: d :: (ts ++ '\n' :: rest)) acc =
          splitlinesAux (d :: (ts ++ '\n' :: rest)) (c :: acc) := by
        simp [splitlinesAux, hcr, hc]
      have hih := ih ht rest (c :: acc)
      simp only [List.cons_append] at hih
      simp only [List.cons_append, hstep, hih, List.reverse_cons,
        List.append_assoc, List.singleton_append, List.nil_append]

theorem pySplitlines_dump : ∀ lines : List Str,
    (∀ l ∈ lines, ∀ c ∈ l, breakChar c = false) →
    pySplitlines (joinNL (lines ++ [[]])) = lines := by
  intro lines
  induction lines with
  | nil => intro _; rfl
  | cons l rest ih =>
    intro h
    have hjoin : joinNL ((l :: rest) ++ [[]]) =
        l ++ '\n' :: joinNL (rest ++ [[]]) := by
      rw [List.cons_append]
      exact joinNL_cons_of_ne_nil (by simp)
    unfold pySplitlines
    rw [hjoin, splitlinesAux_line l (h l (List.mem_cons_self l rest))]
    simp only [List.reverse_nil, List.nil_append]
    have := ih fun l2 hl2 => h l2 (List.mem_cons_of_mem l hl2)
    unfold pySplitlines at this
    rw [this]

theorem dictInsert_not_mem {d : Doc} {k : Str}
    (h : k ∉ d.map Prod.fst) (v : PyVal) :
    dictInsert d k v = d ++ [(k, v)] := by
  induction d with
  | nil => rfl
  | cons kv r ih =>
    have h1 : kv.1 ≠ k := by
      intro hcon
      exact h (by simp [hcon])
    have h2 : k ∉ r.map Prod.fst := fun hcon => h (by simp [hcon])
    simp [dictInsert, h1, ih h2]

theorem foldl_parse_lines : ∀ rest : Doc, ∀ acc : Doc,
    (∀ kv ∈ rest, goodKey kv.1 = true ∧ goodVal kv.2 = true) →
    (rest.map Prod.fst).Nodup →
    (∀ k2 ∈ rest.map Prod.fst, k2 ∉ acc.map Prod.fst) →
    (rest.map lineOf).foldl parseLineStep acc = acc ++ rest := by
  intro rest
  induction rest with
  | nil => intro acc _ _ _; simp
  | cons kv rs ih =>
    obtain ⟨k, v⟩ := kv
    intro acc hgood hnd hdisj
    have hkv := hgood (k, v) (List.mem_cons_self (k, v) rs)
    simp only [List.map_cons, List.foldl_cons]
    rw [parseLineStep_lineOf acc k v hkv.1 hkv.2]
    have hknotin : k ∉ acc.map Prod.fst := hdisj k (by simp)
    rw [dictInsert_not_mem hknotin v]
    rw [List.map_cons] at hnd
    have hnd2 := List.nodup_cons.mp hnd
    have hdisj2 : ∀ k2 ∈ rs.map Prod.fst,
        k2 ∉ (acc ++ [(k, v)]).map Prod.fst := by
      intro k2 hk2 hcon
      simp only [List.map_append, List.map_cons, List.map_nil,
        List.mem_append, List.mem_singleton] at hcon
      rcases hcon with h1 | rfl
      · exact hdisj k2 (by simp [hk2]) h1
      · exact hnd2.1 hk2
    rw [ih (acc ++ [(k, v)])
      (fun kv2 hkv2 => hgood kv2 (List.mem_cons_of_mem (k, v) hkv2))
      hnd2.2 hdisj2]
    simp

/-- Parsing the fallback-serialized form of a well-formed document recovers
the document exactly. -/
theorem parse_dump {doc : Doc} (h : goodDoc doc = true) :
    parse_minimal_toml (dump_toml doc) = doc := by
  simp only [goodDoc, Bool.and_eq_true, decide_eq_true_eq] at h
  obtain ⟨hnd, hall⟩ := h
  have hallkv : ∀ kv ∈ doc, goodKey kv.1 = true ∧ goodVal kv.2 = true := by
    intro kv hkv
    have := List.all_eq_true.mp hall kv hkv
    simpa using this
  have hbk : ∀ l ∈ doc.map lineOf, ∀ c ∈ l, breakChar c = false := by
    intro l hline c hc
    obtain ⟨kv, hkv, rfl⟩ := List.mem_map.mp hline
    obtain ⟨hgk, hgv⟩ := hallkv kv hkv
    simp only [goodKey, Bool.and_eq_true] at hgk
    have hc2 : c ∈ kv.1 ∨ c = ' ' ∨ c = '=' ∨ c = ' ' ∨
        c ∈ format_value kv.2 := by simpa [lineOf] using hc
    rcases hc2 with h1 | rfl | rfl | rfl | h5
    · have := List.all_eq_true.mp hgk.2 c h1
      simpa using this
    · decide
    · decide
    · decide
    · exact format_value_no_break hgv c h5
  unfold parse_minimal_toml dump_toml
  rw [show (doc.map fun kv =>
      kv.1 ++ (' ' :: '=' :: ' ' :: format_value kv.2)) = doc.map lineOf
    from rfl]
  rw [pySplitlines_dump (doc.map lineOf) hbk]
  rw [foldl_parse_lines doc [] hallkv hnd (by simp)]
  simp

/-- C2 (counterexample): for the document `{k: 'a"b'}` — a string value
containing a double quote — serialize/parse/serialize does not reproduce
the first serialization: the writer escapes the quote but the parser never
unescapes it, so the value drifts to `a\"b`. -/
theorem toml_round_trip_counterexample :
    dump_toml (parse_minimal_toml
        (dump_toml [("k".data, PyVal.str "a\"b".data)])) ≠
      dump_toml [("k".data, PyVal.str "a\"b".data)] := by
  decide

/-- C2 (amended): `serialize(parse(serialize(doc))) == serialize(doc)`
holds for every settings document whose keys are nonempty, free of
surrounding whitespace, of `=` and of line-break characters, do not start
with `#`, and are pairwise distinct, and whose values are ints, bools,
strings containing no double quote and no line-break character, or floats
whose printed representation still reads back as a float (it contains a
dot and is accepted by `float(...)`, as every finite non-scientific float
representation is).  In fact parsing recovers the document exactly. -/
theorem toml_round_trip {doc : Doc} (h : goodDoc doc = true) :
    dump_toml (parse_minimal_toml (dump_toml doc)) = dump_toml doc := by
  rw [parse_dump h]

/-- Witness for `toml_round_trip` at a document with one value of each
scalar type. -/
theorem toml_round_trip_witness :
    goodDoc [("k".data, PyVal.str "ab".data), ("n".data, PyVal.int (-7)),
      ("b".data, PyVal.bool true), ("f".data, PyVal.float "1.5".data)] =
        true ∧
    dump_toml (parse_minimal_toml (dump_toml
      [("k".data, PyVal.str "ab".data), ("n".data, PyVal.int (-7)),
       ("b".data, PyVal.bool true), ("f".data, PyVal.float "1.5".data)])) =
    dump_toml [("k".data, PyVal.str "ab".data), ("n".data, PyVal.int (-7)),
       ("b".data, PyVal.bool true), ("f".data, PyVal.float "1.5".data)] :=
  ⟨by decide, toml_round_trip (by decide)⟩

/-- C5: every response built by `WebServer._http_response` — for every
status code, body, content type and extra-header combination — carries a
`Content-Length` header whose value is the exact UTF-8 byte length of the
body, and a `Connection: close` header, and the emitted bytes are exactly
those header lines joined by CRLF followed by a blank line and the body. -/
theorem http_response_invariant (status : Nat) (body contentType : Str)
    (headers : List (Str × Str)) :
    ("Content-Length: ".data ++ natDigits (utf8Len body)) ∈
      http_header_lines status body contentType headers ∧
    "Connection: close".data ∈
      http_header_lines status body contentType headers ∧
    http_response status body contentType headers =
      joinCRLF (http_header_lines status body contentType headers) ++
        '\r' :: '\n' :: body := by
  refine ⟨?_, ?_, rfl⟩ <;> simp [http_header_lines]

/-- C7: with every link-layer attempt failing, `NetworkManager.connect`
on a session that is not already connected makes exactly 5 attempts with a
2-second sleep after each failure and returns false with the failure
recorded; afterwards `is_connected` is false and `get_socket_pool` fails
`NotConnected`. -/
theorem connect_exhausts_five_attempts (oracle : Nat → Bool)
    (h : ∀ i, oracle i = false) (r : Radio) (hr : r.associated = false) :
    nm_connect r oracle = (false, r, 5, [2, 2, 2, 2, 2], true) ∧
    nm_is_connected r = false ∧
    nm_get_socket_pool r = .error .notConnected := by
  refine ⟨?_, ?_, ?_⟩
  · simp [nm_connect, nm_is_connected, hr, connectAttempts, h]
  · simp [nm_is_connected, hr]
  · simp [nm_get_socket_pool, nm_is_connected, hr]

/-- Witness for `connect_exhausts_five_attempts` with the
always-failing link layer. -/
theorem connect_exhausts_five_attempts_witness :
    nm_connect ⟨false⟩ (fun _ => false) =
      (false, ⟨false⟩, 5, [2, 2, 2, 2, 2], true) ∧
    nm_is_connected ⟨false⟩ = false ∧
    nm_get_socket_pool ⟨false⟩ = .error .notConnected :=
  connect_exhausts_five_attempts (fun _ => false) (fun _ => rfl) ⟨false⟩ rfl

/-- C6: with the topics resolved by `MqttClient.__init__` (explicit
per-quantity settings, else `<base>/temperature` and `<base>/humidity`
when a base telemetry topic is set), `publish_telemetry` on numeric data
emits exactly the pair of messages — temperature then humidity, to the two
resolved topics — when both topics resolve and the client is connected;
it fails `NotConfigured` when neither resolves; and every successful call
emits exactly two messages, one per quantity, never a partial pair. -/
theorem publish_telemetry_claim (cfgTemp cfgHum cfgTelemetry : Option Str)
    (tv hv ts dev : Str) :
    (pyTruthyOpt (mqtt_temperature_topic cfgTemp cfgTelemetry) = true →
     pyTruthyOpt (mqtt_humidity_topic cfgHum cfgTelemetry) = true →
      publish_telemetry (mqtt_temperature_topic cfgTemp cfgTelemetry)
          (mqtt_humidity_topic cfgHum cfgTelemetry) true
          (some tv) (some hv) ts dev =
        .ok [⟨(mqtt_temperature_topic cfgTemp cfgTelemetry).getD [],
              ts, dev, tv, "°C".data⟩,
             ⟨(mqtt_humidity_topic cfgHum cfgTelemetry).getD [],
              ts, dev, hv, "%".data⟩]) ∧
    (∀ connected : Bool, ∀ temp hum : Option Str,
      pyTruthyOpt (mqtt_temperature_topic cfgTemp cfgTelemetry) = false →
      pyTruthyOpt (mqtt_humidity_topic cfgHum cfgTelemetry) = false →
      publish_telemetry (mqtt_temperature_topic cfgTemp cfgTelemetry)
          (mqtt_humidity_topic cfgHum cfgTelemetry) connected
          temp hum ts dev = .error .notConfigured) ∧
    (∀ connected : Bool, ∀ temp hum : Option Str,
     ∀ msgs : List TelemetryMsg,
      publish_telemetry (mqtt_temperature_topic cfgTemp cfgTelemetry)
          (mqtt_humidity_topic cfgHum cfgTelemetry) connected
          temp hum ts dev = .ok msgs →
      msgs.length = 2 ∧
      msgs.map TelemetryMsg.topic =
        [(mqtt_temperature_topic cfgTemp cfgTelemetry).getD [],
         (mqtt_humidity_topic cfgHum cfgTelemetry).getD []]) := by
  refine ⟨?_, ?_, ?_⟩
  · intro h1 h2
    simp [publish_telemetry, h1, h2]
  · intro connected temp hum h1 _
    simp [publish_telemetry, h1]
  · intro connected temp hum msgs hok
    unfold publish_telemetry at hok
    by_cases h1 : (!pyTruthyOpt (mqtt_temperature_topic cfgTemp cfgTelemetry) ||
        !pyTruthyOpt (mqtt_humidity_topic cfgHum cfgTelemetry)) = true
    · rw [if_pos h1] at hok; cases hok
    · rw [if_neg h1] at hok
      by_cases h2 : (!connected) = true
      · rw [if_pos h2] at hok; cases hok
      · rw [if_neg h2] at hok
        cases temp with
        | none => cases hok
        | some tv2 =>
          cases hum with
          | none => cases hok
          | some hv2 =>
            cases hok
            exact ⟨rfl, rfl⟩

/-- Witness for `publish_telemetry_claim`: with base topic `sensors`, a
reading is published to `sensors/temperature` and `sensors/humidity`;
with no topic configuration at all, publishing fails `NotConfigured`. -/
theorem publish_telemetry_claim_witness :
    publish_telemetry (mqtt_temperature_topic none (some "sensors".data))
        (mqtt_humidity_topic none (some "sensors".data)) true
        (some "21.5".data) (some "40.0".data) "t0".data "dev".data =
      .ok [⟨"sensors/temperature".data, "t0".data, "dev".data,
            "21.5".data, "°C".data⟩,
           ⟨"sensors/humidity".data, "t0".data, "dev".data,
            "40.0".data, "%".data⟩] ∧
    publish_telemetry (mqtt_temperature_topic none none)
        (mqtt_humidity_topic none none) true
        (some "21.5".data) (some "40.0".data) "t0".data "dev".data =
      .error .notConfigured := by
  constructor
  · have h := (publish_telemetry_claim none none (some "sensors".data)
      "21.5".data "40.0".data "t0".data "dev".data).1 (by decide) (by decide)
    rw [h]
    rfl
  · exact (publish_telemetry_claim none none none
      "21.5".data "40.0".data "t0".data "dev".data).2.1 true
      (some "21.5".data) (some "40.0".data) (by decide) (by decide)

theorem read_attempts_success_ts (oracle : Nat → Option (ℚ × ℚ)) :
    ∀ (fuel i : Nat) (st : SensorState) (t : ℚ) (rd : ℚ × ℚ),
    (read_attempts oracle fuel i st t).1 = some rd →
    t ≤ (read_attempts oracle fuel i st t).2.1.lastReadTs := by
  intro fuel
  induction fuel with
  | zero => intro i st t rd h; cases h
  | succ f ih =>
    intro i st t rd h
    cases ho : oracle i with
    | some tv =>
      simp only [read_attempts, ho]
      exact le_refl t
    | none =>
      simp only [read_attempts, ho] at h ⊢
      have := ih (i + 1) { st with lastError := some () } (t + 1) rd h
      linarith

/-- C8: on an initialized sensor, `read_data` never rejects a call: it
returns normally, sleeping on entry exactly the residual of the 2-second
minimum interval (and nothing when the interval has already elapsed); and
any successful read stamps a time at least 2 seconds after the previous
successful read, so successive successful reads are at least the minimum
interval apart. -/
theorem sensor_min_interval (oracle : Nat → Option (ℚ × ℚ))
    (st : SensorState) (now : ℚ) (hinit : st.inited = true) :
    ∃ res : ReadResult, sensor_read_data oracle st now = .ok res ∧
      res.preSleep =
        (if now - st.lastReadTs < 2 then 2 - (now - st.lastReadTs) else 0) ∧
      (∀ rd, res.reading = some rd →
        st.lastReadTs + 2 ≤ res.state.lastReadTs) := by
  set pre : ℚ :=
    (if now - st.lastReadTs < 2 then 2 - (now - st.lastReadTs) else 0)
    with hpredef
  have hok : sensor_read_data oracle st now =
      .ok ⟨(read_attempts oracle 3 0 st (now + pre)).1,
           (read_attempts oracle 3 0 st (now + pre)).2.1,
           (read_attempts oracle 3 0 st (now + pre)).2.2.1,
           pre,
           (read_attempts oracle 3 0 st (now + pre)).2.2.2⟩ := by
    simp only [sensor_read_data, hinit, Bool.not_true, Bool.false_eq_true,
      if_false]
  refine ⟨_, hok, rfl, ?_⟩
  intro rd hrd
  have hts := read_attempts_success_ts oracle 3 0 st (now + pre) rd hrd
  have hpre : st.lastReadTs + 2 ≤ now + pre := by
    rw [hpredef]
    by_cases hlt : now - st.lastReadTs < 2
    · rw [if_pos hlt]; linarith
    · rw [if_neg hlt]; linarith
  exact le_trans hpre hts

/-- Witness for `sensor_min_interval`: previous read at 0, call at 1 on a
sensor that answers immediately — the call sleeps exactly 1 s and the new
stamp is 2. -/
theorem sensor_min_interval_witness :
    ∃ res : ReadResult,
      sensor_read_data (fun _ => some (21, 40)) ⟨true, 0, none⟩ 1 =
        .ok res ∧
      res.preSleep = (if (1 : ℚ) - 0 < 2 then 2 - ((1 : ℚ) - 0) else 0) ∧
      (∀ rd, res.reading = some rd → (0 : ℚ) + 2 ≤ res.state.lastReadTs) :=
  sensor_min_interval (fun _ => some (21, 40)) ⟨true, 0, none⟩ 1 rfl

/-- C9: `Sensor.read_data` raises exactly when the sensor capability was
never initialized; on an initialized sensor it always returns normally,
and when every attempt yields no value it makes exactly 3 attempts with a
1-second sleep after each, then returns the `None` failure signal with the
error recorded in `last_error` (and the last-read timestamp untouched). -/
theorem sensor_read_error_handling (oracle : Nat → Option (ℚ × ℚ))
    (st : SensorState) (now : ℚ) :
    (st.inited = false → sensor_read_data oracle st now = .error .notInited) ∧
    (st.inited = true → ∃ res, sensor_read_data oracle st now = .ok res) ∧
    (st.inited = true → (∀ i, oracle i = none) →
      sensor_read_data oracle st now =
        .ok ⟨none, { st with lastError := some () },
          (now + (if now - st.lastReadTs < 2 then 2 - (now - st.lastReadTs)
            else 0)) + 3,
          (if now - st.lastReadTs < 2 then 2 - (now - st.lastReadTs) else 0),
          3⟩) := by
  set pre : ℚ :=
    (if now - st.lastReadTs < 2 then 2 - (now - st.lastReadTs) else 0)
    with hpredef
  refine ⟨?_, ?_, ?_⟩
  · intro h
    simp [sensor_read_data, h]
  · intro h
    exact ⟨⟨(read_attempts oracle 3 0 st (now + pre)).1,
            (read_attempts oracle 3 0 st (now + pre)).2.1,
            (read_attempts oracle 3 0 st (now + pre)).2.2.1,
            pre,
            (read_attempts oracle 3 0 st (now + pre)).2.2.2⟩,
      by simp only [sensor_read_data, h, Bool.not_true, Bool.false_eq_true,
        if_false]⟩
  · intro h hfail
    simp only [sensor_read_data, h, Bool.not_true, Bool.false_eq_true,
      if_false, read_attempts, hfail, Except.ok.injEq, ReadResult.mk.injEq]
    and_intros
    all_goals first
      | trivial
      | ring

/-- Witness for `sensor_read_error_handling`: an initialized sensor whose
every attempt fails, called at time 5 with the previous read at 0. -/
theorem sensor_read_error_handling_witness :
    sensor_read_data (fun _ => none) ⟨true, 0, none⟩ 5 =
      .ok ⟨none, { inited := true, lastReadTs := 0, lastError := some () },
        (5 + (if (5 : ℚ) - 0 < 2 then 2 - ((5 : ℚ) - 0) else 0)) + 3,
        (if (5 : ℚ) - 0 < 2 then 2 - ((5 : ℚ) - 0) else 0), 3⟩ :=
  (sensor_read_error_handling (fun _ => none) ⟨true, 0, none⟩ 5).2.2 rfl
    (fun _ => rfl)

/-! ## PUT /api/config applies exactly the submitted keys -/

theorem jsonToPyVal_pyToJson (v : PyVal) : jsonToPyVal (pyToJson v) = some v := by
  cases v <;> rfl

theorem convertUpdates_map (updates : Doc) :
    convertUpdates (updates.map fun kv => (kv.1, pyToJson kv.2)) =
      some updates := by
  induction updates with
  | nil => rfl
  | cons kv rest ih =>
    obtain ⟨k, v⟩ := kv
    simp only [List.map_cons, convertUpdates, jsonToPyVal_pyToJson, ih]

theorem lookupDoc_cons (a : Str × PyVal) (d : Doc) (k : Str) :
    lookupDoc (a :: d) k = if a.1 = k then some a.2 else lookupDoc d k := by
  by_cases h : a.1 = k <;> simp [lookupDoc, List.find?, h]

theorem lookupField_cons (a : Str × Json) (fs : List (Str × Json))
    (k : Str) :
    lookupField (a :: fs) k =
      if a.1 = k then some a.2 else lookupField fs k := by
  by_cases h : a.1 = k <;> simp [lookupField, List.find?, h]

theorem lookupField_map_not_mem {updates : Doc} {k : Str}
    (h : k ∉ updates.map Prod.fst) :
    lookupField (updates.map fun kv => (kv.1, pyToJson kv.2)) k = none := by
  induction updates with
  | nil => rfl
  | cons kv rest ih =>
    have hk0 : kv.1 ≠ k := by
      intro hcon
      exact h (by simp [hcon])
    have hrest : k ∉ rest.map Prod.fst := fun hcon => h (by simp [hcon])
    rw [List.map_cons, lookupField_cons]
    simp only [hk0, if_false]
    exact ih hrest

theorem lookup_dictInsert (d : Doc) (k : Str) (v : PyVal) (k2 : Str) :
    lookupDoc (dictInsert d k v) k2 =
      if k2 = k then some v else lookupDoc d k2 := by
  induction d with
  | nil =>
    rw [show dictInsert [] k v = [(k, v)] from rfl, lookupDoc_cons]
    by_cases h : k2 = k
    · simp [h]
    · have h' : ¬(k = k2) := fun hc => h hc.symm
      simp [h, h', lookupDoc, List.find?]
  | cons kv rest ih =>
    by_cases hk : kv.1 = k
    · rw [show dictInsert (kv :: rest) k v = (k, v) :: rest from by
        simp [dictInsert, hk], lookupDoc_cons, lookupDoc_cons]
      by_cases h2 : k2 = k
      · simp [h2]
      · have h2' : ¬(k = k2) := fun hc => h2 hc.symm
        simp [h2, h2', hk]
    · rw [show dictInsert (kv :: rest) k v = kv :: dictInsert rest k v from by
        simp [dictInsert, hk], lookupDoc_cons, lookupDoc_cons]
      by_cases h2 : kv.1 = k2
      · have h3 : ¬k2 = k := by
          intro hc
          exact hk (h2.trans hc)
        simp [h2, h3]
      · simp only [h2, if_false, ih]

theorem keys_dictInsert_mem {d : Doc} {k : Str} (h : k ∈ d.map Prod.fst)
    (v : PyVal) :
    (dictInsert d k v).map Prod.fst = d.map Prod.fst := by
  induction d with
  | nil => cases h
  | cons kv rest ih =>
    by_cases hk : kv.1 = k
    · simp [dictInsert, hk]
    · have h2 : k ∈ rest.map Prod.fst := by
        rw [List.map_cons] at h
        rcases List.mem_cons.mp h with h3 | h3
        · exact absurd h3.symm hk
        · exact h3
      simp [dictInsert, hk, ih h2]

theorem lookup_dictUpdate : ∀ updates doc : Doc,
    (updates.map Prod.fst).Nodup → ∀ k : Str,
    lookupDoc (dictUpdate doc updates) k =
      if k ∈ updates.map Prod.fst then lookupDoc updates k
      else lookupDoc doc k := by
  intro updates
  induction updates with
  | nil => intro doc _ k; simp [dictUpdate]
  | cons kv rest ih =>
    intro doc hnd k
    obtain ⟨k0, v0⟩ := kv
    rw [List.map_cons] at hnd
    have hnd2 := List.nodup_cons.mp hnd
    have hstep : dictUpdate doc ((k0, v0) :: rest) =
        dictUpdate (dictInsert doc k0 v0) rest := rfl
    rw [hstep, ih (dictInsert doc k0 v0) hnd2.2 k]
    by_cases hmem : k ∈ rest.map Prod.fst
    · have hk0 : k ≠ k0 := fun hcon => hnd2.1 (hcon ▸ hmem)
      rw [if_pos hmem]
      have hmem2 : k ∈ List.map Prod.fst ((k0, v0) :: rest) := by
        simp [hmem]
      rw [if_pos hmem2, lookupDoc_cons]
      have hne0 : ¬((k0, v0).1 = k) := fun hc => hk0 hc.symm
      rw [if_neg hne0]
    · rw [if_neg hmem, lookup_dictInsert]
      by_cases hk0 : k = k0
      · rw [if_pos hk0]
        have hmem2 : k ∈ List.map Prod.fst ((k0, v0) :: rest) := by
          simp [hk0]
        rw [if_pos hmem2, lookupDoc_cons, if_pos hk0.symm]
      · rw [if_neg hk0]
        have hmem2 : k ∉ List.map Prod.fst ((k0, v0) :: rest) := by
          simp only [List.map_cons, List.mem_cons]
          rintro (hc | hc)
          · exact hk0 hc
          · exact hmem hc
        rw [if_neg hmem2]

theorem keys_dictUpdate : ∀ updates doc : Doc,
    (∀ k ∈ updates.map Prod.fst, k ∈ doc.map Prod.fst) →
    (dictUpdate doc updates).map Prod.fst = doc.map Prod.fst := by
  intro updates
  induction updates with
  | nil => intro doc _; rfl
  | cons kv rest ih =>
    intro doc hsub
    obtain ⟨k0, v0⟩ := kv
    have h0 : k0 ∈ doc.map Prod.fst := hsub k0 (by simp)
    have hstep : dictUpdate doc ((k0, v0) :: rest) =
        dictUpdate (dictInsert doc k0 v0) rest := rfl
    rw [hstep, ih (dictInsert doc k0 v0) ?_, keys_dictInsert_mem h0 v0]
    intro k hk
    rw [keys_dictInsert_mem h0 v0]
    exact hsub k (by simp [hk])

/-- C4 (counterexample): when the starting document itself has a key named
`config` and the update is submitted as the object itself, the handler
misreads the object as the `config` wrapper: `PUT` with body
`{"config": 5}` against the document `{config: 0, a: 1}` — a strict
subset of its keys — yields 400 and writes nothing, not 202. -/
theorem api_put_config_counterexample :
    (api_put_config [("config".data, PyVal.int 0), ("a".data, PyVal.int 1)]
      [("content-type".data, "application/json".data)]
      (.parsed (.obj [("config".data, Json.jint 5)]))).status = 400 ∧
    (api_put_config [("config".data, PyVal.int 0), ("a".data, PyVal.int 1)]
      [("content-type".data, "application/json".data)]
      (.parsed (.obj [("config".data, Json.jint 5)]))).newFile = none ∧
    (api_put_config [("config".data, PyVal.int 0), ("a".data, PyVal.int 1)]
      [("content-type".data, "application/json".data)]
      (.parsed (.obj [("config".data, Json.jint 5)]))).pendingReset =
        false := by
  decide

/-- C4 (amended): for a starting document `doc` and a `PUT /api/config`
whose JSON body supplies a nonempty subset of `doc`'s keys — either
wrapped in a top-level `config` object, or as the object itself provided
no submitted key is literally named `config` — the handler answers 202
with body `{"status": "accepted", "rebooting": true}`, persists the
serialization of `doc` with exactly the submitted keys changed to the
submitted values (every other key and the key order unchanged), and arms
the deferred restart. -/
theorem api_put_config_partial_update (doc updates : Doc)
    (headers : List (Str × Str)) (body : BodyInput)
    (hct : hasSub "application/json".data
      (toLowerL (getHeaderD headers "content-type".data)) = true)
    (hne : updates ≠ [])
    (hnodup : (updates.map Prod.fst).Nodup)
    (hsub : ∀ k ∈ updates.map Prod.fst, k ∈ doc.map Prod.fst)
    (hbody : body = .parsed (.obj [("config".data,
        .obj (updates.map fun kv => (kv.1, pyToJson kv.2)))]) ∨
      (body = .parsed (.obj (updates.map fun kv => (kv.1, pyToJson kv.2))) ∧
        "config".data ∉ updates.map Prod.fst)) :
    api_put_config doc headers body =
      ⟨202, "\x7b\"status\": \"accepted\", \"rebooting\": true\x7d".data,
        some (dump_toml (dictUpdate doc updates)), true⟩ ∧
    (∀ k, lookupDoc (dictUpdate doc updates) k =
      if k ∈ updates.map Prod.fst then lookupDoc updates k
      else lookupDoc doc k) ∧
    (dictUpdate doc updates).map Prod.fst = doc.map Prod.fst := by
  have hmapne : (updates.map fun kv => (kv.1, pyToJson kv.2)) ≠ [] := by
    cases updates with
    | nil => exact absurd rfl hne
    | cons kv rest => simp
  have hmapEmpty :
      (updates.map fun kv => (kv.1, pyToJson kv.2)).isEmpty = false := by
    cases hm : updates.map fun kv => (kv.1, pyToJson kv.2) with
    | nil => exact absurd hm hmapne
    | cons x xs => rfl
  refine ⟨?_, lookup_dictUpdate updates doc hnodup,
    keys_dictUpdate updates doc hsub⟩
  rcases hbody with rfl | ⟨rfl, hnc⟩
  · have h1 : lookupField [("config".data,
        Json.obj (updates.map fun kv => (kv.1, pyToJson kv.2)))]
        "config".data =
        some (Json.obj (updates.map fun kv => (kv.1, pyToJson kv.2))) := by
      rw [lookupField_cons]
      simp
    simp only [api_put_config, hct, Bool.not_true, Bool.false_eq_true,
      if_false, putConfigMerge, h1, Option.isSome_some, if_true,
      hmapEmpty, convertUpdates_map updates]
  · have hlf := lookupField_map_not_mem hnc
    simp only [api_put_config, hct, Bool.not_true, Bool.false_eq_true,
      if_false, putConfigMerge, hlf, Option.isSome_none, if_false,
      hmapEmpty, convertUpdates_map updates]

/-- Witness for `api_put_config_partial_update`: updating key `a` of
`{a: 1, b: 2}` through the `config`-wrapped form. -/
theorem api_put_config_partial_update_witness :
    api_put_config [("a".data, PyVal.int 1), ("b".data, PyVal.int 2)]
      [("content-type".data, "application/json".data)]
      (.parsed (.obj [("config".data,
        .obj [("a".data, pyToJson (PyVal.int 5))])])) =
      ⟨202, "\x7b\"status\": \"accepted\", \"rebooting\": true\x7d".data,
        some (dump_toml (dictUpdate
          [("a".data, PyVal.int 1), ("b".data, PyVal.int 2)]
          [("a".data, PyVal.int 5)])), true⟩ :=
  (api_put_config_partial_update
    [("a".data, PyVal.int 1), ("b".data, PyVal.int 2)]
    [("a".data, PyVal.int 5)]
    [("content-type".data, "application/json".data)]
    (.parsed (.obj [("config".data,
      .obj [("a".data, pyToJson (PyVal.int 5))])]))
    (by decide) (by decide) (by decide) (by decide) (Or.inl rfl)).1

/-! ## poll never propagates, but swallows read/send errors silently -/

/-- C10 (counterexample): a connection whose very first `recv` raises and
whose every `send` raises.  `poll` returns normally with the close
attempted — but `last_error` is still `none`: the reading and sending
errors were caught by the inner `except: break` arms and never recorded,
contradicting the claim that any error raised while reading or sending is
recorded in `last_error`. -/
theorem poll_read_error_not_recorded :
    webserver_poll
      ⟨.ok (), fun _ => .exc, fun _ => .ok ['x'], fun _ => .exc, .ok ()⟩
      ⟨none, false⟩ =
      .ok ⟨⟨none, false⟩, true, false, 0⟩ := by
  rfl

/-- C10 (amended): for every accepted connection, every request byte
sequence and every combination of peer failures, `poll` never propagates
an exception: it always returns normally, always attempts to close the
client socket, records in `last_error` any error raised by the dispatch
(`_handle_request`), and leaves `last_error` untouched when dispatch
succeeds — errors in the buffered read and send loops only abort that
loop silently. -/
theorem poll_never_propagates (o : PollOracles) (st : WebState) :
    ∃ out : PollOutcome, webserver_poll o st = .ok out ∧
      out.closeAttempted = true ∧
      (o.handler (poll_request_text o) = .exc →
        out.state.lastError = some ()) ∧
      (∀ r, o.handler (poll_request_text o) = .ok r →
        out.state.lastError = st.lastError) := by
  cases hh : o.handler (poll_request_text o) with
  | ok r =>
    refine ⟨⟨{ st with pendingReset := false }, true, st.pendingReset,
      sendLoop o.sends r.length 0 0 r.length⟩, ?_, rfl, ?_, ?_⟩
    · simp only [webserver_poll, hh]
    · intro hcon
      cases hcon
    · intro r2 _
      rfl
  | exc =>
    refine ⟨⟨⟨some (), false⟩, true, st.pendingReset, 0⟩, ?_, rfl, ?_, ?_⟩
    · simp only [webserver_poll, hh]
    · intro _
      rfl
    · intro r2 hcon
      cases hcon

/-- Witness for `poll_never_propagates`: a dispatch that raises on a
well-behaved connection gets recorded in `last_error`, and the socket is
still closed. -/
theorem poll_never_propagates_witness :
    ∃ out : PollOutcome,
      webserver_poll
        ⟨.ok (), fun _ => .ok [], fun _ => .exc, fun _ => .ok 1, .ok ()⟩
        ⟨none, false⟩ = .ok out ∧
      out.closeAttempted = true ∧ out.state.lastError = some () := by
  obtain ⟨out, h1, h2, h3, _⟩ := poll_never_propagates
    ⟨.ok (), fun _ => .ok [], fun _ => .exc, fun _ => .ok 1, .ok ()⟩
    ⟨none, false⟩
  exact ⟨out, h1, h2, h3 rfl⟩

/-- C1 (counterexample): at a concrete settings document, the save
operation's effect trace contains no write to a temporary path, no
removal of the previous file and no rename — it opens the settings path
itself and writes into it — and an execution interrupted after three
characters of the write leaves the file holding neither the old complete
serialization nor the new one. -/
theorem save_settings_not_atomic_counterexample :
    (save_settings ⟨"/settings.toml".data, none⟩
        [("a".data, PyVal.int 2)]).2 =
      [FsOp.openTrunc "/settings.toml".data,
       FsOp.writeBytes "/settings.toml".data
         (dump_toml [("a".data, PyVal.int 2)]),
       FsOp.resetDevice] ∧
    ((save_settings ⟨"/settings.toml".data, none⟩
        [("a".data, PyVal.int 2)]).2.all fun op =>
      match op with
      | FsOp.renameFile _ _ => false
      | FsOp.removeFile _ => false
      | _ => true) = true ∧
    fileAfterCrash (dump_toml [("a".data, PyVal.int 2)]) 3 ≠
      dump_toml [("a".data, PyVal.int 1)] ∧
    fileAfterCrash (dump_toml [("a".data, PyVal.int 2)]) 3 ≠
      dump_toml [("a".data, PyVal.int 2)] := by
  decide

/-- C1 (amended): `ConfigManager.save_settings` serializes the document
and writes it directly to the settings path — truncating open, single
write, no temporary file, no remove, no rename — updates the in-memory
cache, and then triggers a full device restart. -/
theorem save_settings_behaviour (cm : ConfigManager) (settings : Doc) :
    save_settings cm settings =
      ({ cm with settingsCache := some settings },
       [FsOp.openTrunc cm.filepath,
        FsOp.writeBytes cm.filepath (dump_toml settings),
        FsOp.resetDevice]) := rfl

end Firmware
